import Mathlib

/-!
Verification of the zigx build backend (`src/zigx/build.py`) against its
natural-language specification.

The Python module is shallowly embedded: pure string/list manipulating
functions are translated to executable Lean functions over `String` /
`List Char`; effectful operations (subprocess execution, the filesystem)
are made explicit as function parameters or input data.  Python's
`str.strip` / regex `\s` are modelled over the six ASCII whitespace
characters, and regex `\w` over ASCII alphanumerics plus underscore;
all inputs appearing in the specification are ASCII.
-/

namespace Zigx

/-! ## Basic Python string helpers -/

/-- The characters matched by Python's `\s` (ASCII range) and stripped by
`str.strip()`. -/
def isPySpace (c : Char) : Bool :=
  c == ' ' || c == '\t' || c == '\n' || c == '\r' || c == '\x0b' || c == '\x0c'

/-- The characters matched by Python's regex `\w` (ASCII range). -/
def isWordChar (c : Char) : Bool :=
  c.isAlphanum || c == '_'

/-- `str.strip()` on a character list: drop leading whitespace, then
trailing whitespace. -/
def pyStripList (l : List Char) : List Char :=
  ((l.dropWhile isPySpace).reverse.dropWhile isPySpace).reverse

/-- `str.strip()` on a `String`. -/
def pyStripStr (s : String) : String :=
  ⟨pyStripList s.data⟩

/-- Boolean string-prefix test (`str.startswith`). -/
def isPreB (p s : String) : Bool :=
  p.data.isPrefixOf s.data

/-- Python `str.split(sep)` for a one-character separator (always returns a
non-empty list of pieces). -/
def splitOnChar (sep : Char) : List Char → List (List Char)
  | [] => [[]]
  | c :: cs =>
    if c = sep then [] :: splitOnChar sep cs
    else
      match splitOnChar sep cs with
      | h :: t => (c :: h) :: t
      | [] => [[c]]

/-- Python `str.split(sep, 1)` when the separator occurs (`none` when the
separator does not occur, modelling the `sep in s` guard). -/
def splitFirst (sep : Char) : List Char → Option (List Char × List Char)
  | [] => none
  | c :: cs =>
    if c = sep then some ([], cs)
    else (splitFirst sep cs).map (fun p => (c :: p.1, p.2))

/-- Python `str.replace(old, new)` for one-character patterns. -/
def pyReplaceChar (a b : Char) (s : String) : String :=
  ⟨s.data.map (fun c => if c = a then b else c)⟩

/-- Join character-list pieces with a separator (`sep.join(pieces)`). -/
def joinWith (sep : List Char) : List (List Char) → List Char
  | [] => []
  | [x] => x
  | x :: y :: xs => x ++ sep ++ joinWith sep (y :: xs)

/-! ## Type mapper (`ZIG_TO_CTYPES`, `parse_zig_type`) -/

/-- The `ZIG_TO_CTYPES` dictionary of `build.py`, as an ordered association
list (keys are pairwise distinct). -/
def ZIG_TO_CTYPES : List (String × String) :=
  [ ("i8", "ctypes.c_int8"),
    ("i16", "ctypes.c_int16"),
    ("i32", "ctypes.c_int32"),
    ("i64", "ctypes.c_int64"),
    ("u8", "ctypes.c_uint8"),
    ("u16", "ctypes.c_uint16"),
    ("u32", "ctypes.c_uint32"),
    ("u64", "ctypes.c_uint64"),
    ("f16", "ctypes.c_float"),
    ("f32", "ctypes.c_float"),
    ("f64", "ctypes.c_double"),
    ("bool", "ctypes.c_bool"),
    ("c_int", "ctypes.c_int"),
    ("c_uint", "ctypes.c_uint"),
    ("c_long", "ctypes.c_long"),
    ("c_ulong", "ctypes.c_ulong"),
    ("c_longlong", "ctypes.c_longlong"),
    ("c_ulonglong", "ctypes.c_ulonglong"),
    ("c_char", "ctypes.c_char"),
    ("c_short", "ctypes.c_short"),
    ("c_ushort", "ctypes.c_ushort"),
    ("usize", "ctypes.c_size_t"),
    ("isize", "ctypes.c_ssize_t"),
    ("void", "None"),
    ("[*c]const u8", "ctypes.c_char_p"),
    ("[*c]u8", "ctypes.c_char_p"),
    ("*const u8", "ctypes.c_char_p"),
    ("*u8", "ctypes.c_char_p"),
    ("[*]const u8", "ctypes.c_char_p"),
    ("[*]u8", "ctypes.c_char_p") ]

/-- Exact dictionary lookup (`zig_type in ZIG_TO_CTYPES`). -/
def lookupCtypes (z : String) : Option String :=
  (ZIG_TO_CTYPES.find? (fun p => p.1 == z)).map Prod.snd

/-- `parse_zig_type` of `build.py`: convert a Zig type spelling to its
ctypes descriptor string.  The redundant-looking optional branch mirrors
the source, where both the pointer-shaped-inner case and the fallthrough
return the opaque pointer descriptor. -/
def parse_zig_type (zig_type : String) : String :=
  let z := pyStripStr zig_type
  match lookupCtypes z with
  | some c => c
  | none =>
    if isPreB "*" z || isPreB "[*" z then "ctypes.c_void_p"
    else if isPreB "?" z then
      let inner := pyStripStr ⟨z.data.drop 1⟩
      if isPreB "*" inner || isPreB "[*" inner then "ctypes.c_void_p"
      else "ctypes.c_void_p"
    else "ctypes.c_void_p"

/-- The closed set of marshaling descriptor strings the mapper can emit. -/
def ctypesDescriptors : List String :=
  [ "ctypes.c_int8", "ctypes.c_int16", "ctypes.c_int32", "ctypes.c_int64",
    "ctypes.c_uint8", "ctypes.c_uint16", "ctypes.c_uint32", "ctypes.c_uint64",
    "ctypes.c_float", "ctypes.c_double", "ctypes.c_bool",
    "ctypes.c_int", "ctypes.c_uint", "ctypes.c_long", "ctypes.c_ulong",
    "ctypes.c_longlong", "ctypes.c_ulonglong", "ctypes.c_char",
    "ctypes.c_short", "ctypes.c_ushort", "ctypes.c_size_t",
    "ctypes.c_ssize_t", "None", "ctypes.c_char_p", "ctypes.c_void_p" ]

/-! ## Export scanner (`ZigFunction`, `parse_zig_exports`)

`parse_zig_exports` scans source text with the fixed regular expression

  `(?:///[^\n]*\n)* \s* (?:pub\s+)? export\s+fn\s+ (\w+) \s*\( ([^)]*) \)\s* ([^{]+?) \s*\{`

via `re.finditer` (leftmost, non-overlapping matches).  The pattern is
embedded as a deterministic character-level matcher; for this pattern the
regex engine's backtracking never changes the outcome:

* the doc-comment repetition is committed (after dropping an iteration the
  next element would have to match at a position starting with `/`, which
  `\s*`, `pub` and `export` all reject);
* `(?:pub\s+)?` is committed (if `pub\s+` succeeds, the fallback would
  have to match `export` at a position starting with `p`);
* greedy `[^)]*` stops exactly at the first `)`, with no useful shorter
  alternative;
* `\s*([^{]+?)\s*\{` matches iff there is at least one character between
  the `)` and the first following `{`; the captured group is that span
  minus some leading/trailing whitespace, and since the scanner only ever
  uses `group.strip()`, the matcher records the whole span (its strip is
  the same string).
-/

/-- The `ZigFunction` record of `build.py`. -/
structure ZigFunction where
  name : String
  return_type : String
  params : List (String × String)
  doc : String
  release_gil : Bool
deriving DecidableEq, Repr

/-- Consume an exact literal prefix, returning the remainder. -/
def consumeLit : List Char → List Char → Option (List Char)
  | [], cs => some cs
  | _ :: _, [] => none
  | l :: ls, c :: cs => if c = l then consumeLit ls cs else none

/-- One doc-comment iteration `///[^\n]*\n`: returns the consumed text
(including the newline) and the rest. -/
def docLine (cs : List Char) : Option (List Char × List Char) :=
  match consumeLit ['/', '/', '/'] cs with
  | none => none
  | some rest =>
    let body := rest.takeWhile (fun c => c != '\n')
    match rest.dropWhile (fun c => c != '\n') with
    | '\n' :: rest2 => some ('/' :: '/' :: '/' :: (body ++ ['\n']), rest2)
    | _ => none

/-- The greedy doc-comment block `(?:///[^\n]*\n)*` (fuel-bounded; one unit
of fuel per line suffices). -/
def docGroupAux : Nat → List Char → List Char × List Char
  | 0, cs => ([], cs)
  | fuel + 1, cs =>
    match docLine cs with
    | some (line, rest) =>
      match docGroupAux fuel rest with
      | (more, rest2) => (line ++ more, rest2)
    | none => ([], cs)

/-- The committed form of `(?:pub\s+)?`. -/
def pubOpt (cs : List Char) : List Char :=
  match consumeLit ['p', 'u', 'b'] cs with
  | some (c :: rest) =>
    if isPySpace c then (c :: rest).dropWhile isPySpace else cs
  | _ => cs

/-- Raw capture groups of one match of the export pattern.  `ret` is the
full span between the closing parenthesis and the opening brace (see the
section comment: its strip equals the strip of the regex group). -/
structure RawMatch where
  doc : List Char
  name : List Char
  params : List Char
  ret : List Char
deriving DecidableEq, Repr

/-- Attempt the export-declaration pattern at the start of `cs`; on success
return the capture groups and the text after the opening brace. -/
def matchExportAt (cs : List Char) : Option (RawMatch × List Char) :=
  let dg := docGroupAux cs.length cs
  let doc := dg.1
  let r1 := dg.2
  let r2 := r1.dropWhile isPySpace
  let r3 := pubOpt r2
  match consumeLit ['e', 'x', 'p', 'o', 'r', 't'] r3 with
  | none => none
  | some r4 =>
    match r4 with
    | [] => none
    | c4 :: _ =>
      if isPySpace c4 then
        let r5 := r4.dropWhile isPySpace
        match consumeLit ['f', 'n'] r5 with
        | none => none
        | some r6 =>
          match r6 with
          | [] => none
          | c6 :: _ =>
            if isPySpace c6 then
              let r7 := r6.dropWhile isPySpace
              let name := r7.takeWhile isWordChar
              let r8 := r7.dropWhile isWordChar
              if name.isEmpty then none
              else
                match r8.dropWhile isPySpace with
                | '(' :: r10 =>
                  let params := r10.takeWhile (fun c => c != ')')
                  match r10.dropWhile (fun c => c != ')') with
                  | ')' :: r12 =>
                    let between := r12.takeWhile (fun c => c != '{')
                    match r12.dropWhile (fun c => c != '{') with
                    | '{' :: r14 =>
                      if between.isEmpty then none
                      else some (⟨doc, name, params, between⟩, r14)
                    | _ => none
                  | _ => none
                | _ => none
            else none
      else none

/-- `re.finditer`: try the pattern at each position from the left; on a
match, emit it and continue after the match (fuel-bounded; one unit of
fuel per position suffices since each match consumes at least one
character). -/
def findAllAux : Nat → List Char → List RawMatch
  | 0, _ => []
  | _ + 1, [] => []
  | fuel + 1, c :: cs =>
    match matchExportAt (c :: cs) with
    | some (m, rest) => m :: findAllAux fuel rest
    | none => findAllAux fuel cs

/-- All matches of the export pattern in a character list. -/
def findAll (cs : List Char) : List RawMatch :=
  findAllAux cs.length cs

/-- Doc-comment post-processing of `parse_zig_exports`: strip the raw doc
group; keep the lines that (stripped) start with `///`; strip each line of
leading slashes and surrounding whitespace; join with newlines. -/
def processDoc (docRaw : List Char) : String :=
  let doc_lines := pyStripList docRaw
  if doc_lines.isEmpty then ""
  else
    ⟨joinWith ['\n'] (((splitOnChar '\n' doc_lines).filter
        (fun l => ['/', '/', '/'].isPrefixOf (pyStripList l))).map
        (fun l => pyStripList (l.dropWhile (fun c => c == '/'))))⟩

/-- Per-parameter post-processing: strip; skip the empty string, the
variadic marker and `comptime`-qualified parameters; split the rest on the
first colon into a stripped (name, type) pair; parameters with no colon
are skipped. -/
def processParam (p : List Char) : Option (String × String) :=
  let q := pyStripList p
  if q.isEmpty then none
  else if q = ['.', '.', '.'] then none
  else if ['c', 'o', 'm', 'p', 't', 'i', 'm', 'e'].isPrefixOf q then none
  else
    match splitFirst ':' q with
    | some (n, t) => some (⟨pyStripList n⟩, ⟨pyStripList t⟩)
    | none => none

/-- Parameter-list post-processing: strip the raw group; if non-empty,
split on commas and process each piece. -/
def processParams (paramsRaw : List Char) : List (String × String) :=
  let params_str := pyStripList paramsRaw
  if params_str.isEmpty then []
  else (splitOnChar ',' params_str).filterMap processParam

/-- Build the `ZigFunction` record from one raw match
(`release_gil` is always `true`). -/
def toZigFunction (m : RawMatch) : ZigFunction :=
  { name := ⟨m.name⟩
    return_type := ⟨pyStripList m.ret⟩
    params := processParams m.params
    doc := processDoc m.doc
    release_gil := true }

/-- `parse_zig_exports` of `build.py`. -/
def parse_zig_exports (src : String) : List ZigFunction :=
  (findAll src.data).map toZigFunction

/-! ## Binding generator (`generate_init_py`)

The generator builds a list of text lines and joins them with newlines.
The model reproduces the lines exactly (literal braces of the generated
Python text are written with `\x7b` / `\x7d` escapes).  One line of the
library-loading block is emitted by the source from a non-interpolated
string, so the generated text really contains doubled braces there. -/

/-- The section-banner comment line of the generated module: `# ` followed
by 77 equals signs. -/
def bannerLine : String := "# " ++ String.mk (List.replicate 77 '=')

/-- The docstring block of one generated wrapper function. -/
def wrapperDocLines (func : ZigFunction) : List String :=
  [ "    \"\"\"" ++ func.name ]
  ++ (if func.doc != "" then
        [""] ++ (splitOnChar '\n' func.doc.data).map (fun l => "    " ++ ⟨l⟩)
      else [])
  ++ (if func.params.isEmpty then []
      else ["", "    Args:"]
        ++ func.params.map (fun p => "        " ++ p.1 ++ ": " ++ p.2))
  ++ (if func.return_type != "" && func.return_type != "void" then
        ["", "    Returns:", "        " ++ func.return_type]
      else [])
  ++ [ "    \"\"\"" ]

/-- All generated lines of one wrapper function. -/
def wrapperLines (gil_release : Bool) (func : ZigFunction) : List String :=
  let param_list := String.intercalate ", " (func.params.map Prod.fst)
  [ "def " ++ func.name ++ "(" ++ param_list ++ "):" ]
  ++ wrapperDocLines func
  ++ [ "    lib = _load_library()",
       "    func = lib." ++ func.name ]
  ++ (if func.params.isEmpty then ["    func.argtypes = []"]
      else ["    func.argtypes = ["
              ++ String.intercalate ", " (func.params.map (fun p => parse_zig_type p.2))
              ++ "]"])
  ++ [ "    func.restype = " ++ parse_zig_type func.return_type ]
  ++ (if gil_release && func.release_gil then
        [ "    with _release_gil:" ]
        ++ (if param_list != "" then ["        return func(" ++ param_list ++ ")"]
            else ["        return func()"])
      else
        (if param_list != "" then ["    return func(" ++ param_list ++ ")"]
         else ["    return func()"]))
  ++ [ "", "" ]

/-- The complete list of lines generated by `generate_init_py`. -/
def generate_init_py_lines (module_name : String) (functions : List ZigFunction)
    (lib_filename : String) (gil_release : Bool) : List String :=
  [ "\"\"\"",
    module_name ++ " - Python bindings for Zig library.",
    "",
    "This module was automatically generated by ZigX.",
    "https://github.com/muhammad-fiaz/zigx",
    "\"\"\"",
    "",
    "from __future__ import annotations",
    "",
    "import ctypes",
    "import os",
    "import sys",
    "from pathlib import Path",
    "from typing import Any, Optional",
    "",
    "# Module metadata",
    "__version__ = \"0.1.0\"",
    "__all__ = [" ]
  ++ functions.map (fun func => "    \"" ++ func.name ++ "\",")
  ++ [ "]", "" ]
  ++ [ bannerLine,
       "# Library Loading",
       bannerLine,
       "",
       "_lib: Optional[ctypes.CDLL] = None",
       "",
       "",
       "def _get_lib_path() -> Path:",
       "    \"\"\"Find the native library path.\"\"\"",
       "    module_dir = Path(__file__).parent",
       "    ",
       "    # Platform-specific library names",
       "    if sys.platform == \"win32\":",
       "        lib_names = [\"" ++ lib_filename ++ "\", \"" ++ module_name
         ++ ".dll\", \"lib" ++ module_name ++ ".dll\"]",
       "    elif sys.platform == \"darwin\":",
       "        lib_names = [\"" ++ lib_filename ++ "\", \"lib" ++ module_name
         ++ ".dylib\", \"" ++ module_name ++ ".dylib\"]",
       "    else:",
       "        lib_names = [\"" ++ lib_filename ++ "\", \"lib" ++ module_name
         ++ ".so\", \"" ++ module_name ++ ".so\"]",
       "    ",
       "    for name in lib_names:",
       "        lib_path = module_dir / name",
       "        if lib_path.exists():",
       "            return lib_path",
       "    ",
       "    raise OSError(",
       "        f\"Could not find " ++ module_name ++ " native library. \"",
       "        f\"Searched in \x7b\x7bmodule_dir\x7d\x7d for: \x7b\x7blib_names\x7d\x7d\"",
       "    )",
       "",
       "",
       "def _load_library() -> ctypes.CDLL:",
       "    \"\"\"Load the native library.\"\"\"",
       "    global _lib",
       "    if _lib is not None:",
       "        return _lib",
       "    ",
       "    lib_path = _get_lib_path()",
       "    ",
       "    try:",
       "        _lib = ctypes.CDLL(str(lib_path))",
       "    except OSError as e:",
       "        raise OSError(",
       "            f\"Failed to load " ++ module_name
         ++ " native library from \x7blib_path\x7d: \x7be\x7d\"",
       "        ) from e",
       "    ",
       "    return _lib",
       "",
       "" ]
  ++ (if gil_release then
        [ bannerLine,
          "# GIL Management",
          bannerLine,
          "",
          "class _ReleaseGIL:",
          "    \"\"\"Context manager for releasing the GIL during native calls.\"\"\"",
          "    ",
          "    __slots__ = (\"_state\",)",
          "    ",
          "    def __enter__(self) -> \"_ReleaseGIL\":",
          "        # For ctypes calls, the GIL is automatically released",
          "        # This is a marker for documentation purposes",
          "        return self",
          "    ",
          "    def __exit__(self, *args: Any) -> None:",
          "        pass",
          "",
          "",
          "_release_gil = _ReleaseGIL()",
          "",
          "" ]
      else [])
  ++ [ bannerLine,
       "# Function Bindings",
       bannerLine,
       "" ]
  ++ functions.flatMap (wrapperLines gil_release)
  ++ [ bannerLine,
       "# Module Initialization",
       bannerLine,
       "",
       "# Pre-load library on import for faster first call",
       "try:",
       "    _load_library()",
       "except OSError:",
       "    # Library will be loaded on first function call",
       "    pass" ]

/-- `generate_init_py` of `build.py`: the joined module text. -/
def generate_init_py (module_name : String) (functions : List ZigFunction)
    (lib_filename : String) (gil_release : Bool) : String :=
  String.intercalate "\n"
    (generate_init_py_lines module_name functions lib_filename gil_release)

/-- End-to-end scenario A source: one undocumented export declaration. -/
def exampleSourceA : String :=
  "export fn add(a: i32, b: i32) i32 \x7b\n    return a + b;\n\x7d\n"

/-- The generated module lines for scenario A. -/
def exampleLinesA : List String :=
  generate_init_py_lines "adder" (parse_zig_exports exampleSourceA) "libadder.so" true

/-! ## Directory scan (`scan_zig_sources`)

The filesystem is made explicit: each `.zig` file is a pair of its path
and `some text` when `read_text` succeeds, or `none` when reading or
decoding raises (the `except` branch, which only prints a warning). -/

/-- `scan_zig_sources` of `build.py` over an explicit file list. -/
def scan_zig_sources (files : List (String × Option String)) : List ZigFunction :=
  files.foldl
    (fun all_functions f =>
      match f.2 with
      | some source => all_functions ++ parse_zig_exports source
      | none => all_functions)
    []

/-! ## Compiler invocation (`compile_zig`)

The subprocess is made explicit: `compile_zig`'s behaviour after
`subprocess.run` returns is a pure function of the completed process and
of whether the expected output file exists. -/

/-- A completed `subprocess.run` result. -/
structure SubprocessResult where
  returncode : Int
  stdout : String
  stderr : String
deriving DecidableEq, Repr

/-- The possible outcomes of `compile_zig` after the subprocess ran. -/
inductive CompileOutcome where
  | calledProcessError (returncode : Int) (output : String) (stderrMsg : String)
  | outputMissing (msg : String)
  | success (outputFile : String)
deriving DecidableEq, Repr

/-- The decision logic of `compile_zig` after `subprocess.run`
(`error_msg = result.stderr or result.stdout`; then the existence check of
the expected output file; otherwise return the output path). -/
def compile_zig_outcome (result : SubprocessResult) (outputFile : String)
    (outputExists : Bool) : CompileOutcome :=
  if result.returncode ≠ 0 then
    let error_msg := if result.stderr = "" then result.stdout else result.stderr
    .calledProcessError result.returncode result.stdout
      ("Zig compilation failed:\n" ++ error_msg)
  else if !outputExists then
    .outputMissing ("Compilation completed but output file not found: " ++ outputFile)
  else
    .success outputFile

/-- Whether an outcome is the non-zero-exit compilation error. -/
def CompileOutcome.isCalledProcessError : CompileOutcome → Bool
  | .calledProcessError _ _ _ => true
  | _ => false

/-! ## Wheel RECORD (`create_wheel_record`)

Staged files are explicit (relative path, content bytes-as-text) pairs;
the SHA-256 primitive is a parameter producing the 32 digest bytes. -/

/-- The URL-safe base64 alphabet. -/
def b64Alphabet : List Char :=
  "ABCDEFGHIJKLMNOPQRSTUVWXYZabcdefghijklmnopqrstuvwxyz0123456789-_".data

/-- One base64 character. -/
def b64CharOf (n : Nat) : Char := b64Alphabet.getD n 'A'

/-- Standard base64 encoding with URL-safe alphabet and `=` padding. -/
def b64urlChunks : List Nat → List Char
  | [] => []
  | [a] => [b64CharOf (a / 4), b64CharOf (a % 4 * 16), '=', '=']
  | [a, b] => [b64CharOf (a / 4), b64CharOf (a % 4 * 16 + b / 16),
               b64CharOf (b % 16 * 4), '=']
  | a :: b :: c :: rest =>
    [b64CharOf (a / 4), b64CharOf (a % 4 * 16 + b / 16),
     b64CharOf (b % 16 * 4 + c / 64), b64CharOf (c % 64)] ++ b64urlChunks rest

/-- `urlsafe_b64encode(digest).rstrip(b"=")`. -/
def b64urlNoPad (bytes : List Nat) : String :=
  ⟨((b64urlChunks bytes).reverse.dropWhile (fun c => c == '=')).reverse⟩

/-- `file_path.name`: the last path component. -/
def pyFileName (p : String) : String :=
  ⟨(p.data.reverse.takeWhile (fun c => c != '/')).reverse⟩

/-- One RECORD line: forward-slashed path, base64url SHA-256 digest of
the content bytes, byte length. -/
def recordLine (sha256 : String → List Nat) (f : String × String) : String :=
  pyReplaceChar '\\' '/' f.1 ++ ",sha256=" ++ b64urlNoPad (sha256 f.2)
    ++ "," ++ toString f.2.utf8ByteSize

/-- The RECORD entries of `create_wheel_record`: one loop over the staged
files skipping any file named `RECORD`, then the terminal self-entry with
empty digest and length fields. -/
def create_wheel_records (sha256 : String → List Nat)
    (files : List (String × String)) : List String :=
  (files.foldl
    (fun records f =>
      if pyFileName f.1 != "RECORD" then records ++ [recordLine sha256 f]
      else records)
    []) ++ ["RECORD,,"]

/-- `create_wheel_record` of `build.py`: the joined RECORD text. -/
def create_wheel_record (sha256 : String → List Nat)
    (files : List (String × String)) : String :=
  String.intercalate "\n" (create_wheel_records sha256 files)

/-! ## Wheel metadata (`create_wheel_metadata`) -/

/-- The `license` value of project metadata: a TOML table (a dict in
Python, looked up at key `text`) or a plain string. -/
inductive PyLicense where
  | pdict (entries : List (String × String))
  | pstr (s : String)
deriving DecidableEq, Repr

/-- Python truthiness of the license value (empty dict and empty string
are falsy). -/
def licenseTruthy : PyLicense → Bool
  | .pdict es => !es.isEmpty
  | .pstr s => s != ""

/-- The `License:` line. -/
def licenseLine : PyLicense → String
  | .pdict es => "License: " ++ ((es.lookup "text").getD "")
  | .pstr s => "License: " ++ s

/-- One entry of the `authors` list: a dict (with possibly-missing `name`
and `email` keys, defaulted to `""`), or any non-dict value. -/
inductive PyAuthor where
  | adict (name : String) (email : String)
  | nondict
deriving DecidableEq, Repr

/-- The author line emitted for one `authors` entry, if any: dict entries
with name and email give `Author-Email`, with only a name give `Author`,
anything else gives no line. -/
def authorLine : PyAuthor → Option String
  | .adict n e =>
    if n != "" && e != "" then some ("Author-Email: " ++ n ++ " <" ++ e ++ ">")
    else if n != "" then some ("Author: " ++ n)
    else none
  | .nondict => none

/-- The metadata mapping built by `get_project_metadata` (all keys are
always present, defaulted from `pyproject.toml`). -/
structure ProjectMetadata where
  name : String
  version : String
  description : String
  requires_python : String
  license : PyLicense
  authors : List PyAuthor
  classifiers : List String
  dependencies : List String
  urls : List (String × String)
deriving Repr

/-- The METADATA lines of `create_wheel_metadata`, in emission order. -/
def create_wheel_metadata_lines (m : ProjectMetadata) : List String :=
  [ "Metadata-Version: 2.1",
    "Name: " ++ m.name,
    "Version: " ++ m.version ]
  ++ (if m.description != "" then ["Summary: " ++ m.description] else [])
  ++ (if m.requires_python != "" then ["Requires-Python: " ++ m.requires_python] else [])
  ++ (if licenseTruthy m.license then [licenseLine m.license] else [])
  ++ m.authors.filterMap authorLine
  ++ m.classifiers.map (fun c => "Classifier: " ++ c)
  ++ m.dependencies.map (fun d => "Requires-Dist: " ++ d)
  ++ m.urls.map (fun u => "Project-URL: " ++ u.1 ++ ", " ++ u.2)

/-- `create_wheel_metadata` of `build.py`: the METADATA text and the fixed
four-line WHEEL text. -/
def create_wheel_metadata (m : ProjectMetadata)
    (python_tag abi_tag platform_tag : String) : String × String :=
  ( String.intercalate "\n" (create_wheel_metadata_lines m),
    String.intercalate "\n"
      [ "Wheel-Version: 1.0",
        "Generator: zigx",
        "Root-Is-Purelib: false",
        "Tag: " ++ python_tag ++ "-" ++ abi_tag ++ "-" ++ platform_tag ] )

/-! ## Wheel assembly (`build_wheel_impl`)

The staged wheel tree is modelled as the ordered list of files written
into the temporary directory, as (relative path, content) pairs.  The
results of `compile_zig` (library file name and bytes) and of
`scan_zig_sources` are parameters; the editable branch writes neither. -/

/-- The `[tool.zigx]` configuration mapping. -/
structure ZigxConfig where
  src_dir : String
  module_name : Option String
  release : Bool
  strip_flag : Bool
  gil_release : Bool
deriving Repr

/-- The files staged into the wheel temporary directory by
`build_wheel_impl`, in write order: in editable mode a single `.pth`
path-redirect file whose content is the project directory; otherwise the
compiled library, the generated `__init__.py` and the `py.typed` marker
inside the package directory; then the `.dist-info` metadata files, and
finally `RECORD` over everything staged so far. -/
def build_wheel_impl_files (sha256 : String → List Nat) (metadata : ProjectMetadata)
    (zigx_config : ZigxConfig) (project_dir : String)
    (python_tag abi_tag platform_tag : String) (editable : Bool)
    (lib_filename lib_content : String) (functions : List ZigFunction) :
    List (String × String) :=
  let name := metadata.name
  let version := metadata.version
  let module_name := zigx_config.module_name.getD (pyReplaceChar '-' '_' name)
  let payload :=
    if editable then
      [(module_name ++ ".pth", project_dir)]
    else
      [ (module_name ++ "/" ++ lib_filename, lib_content),
        (module_name ++ "/__init__.py",
          generate_init_py module_name functions lib_filename zigx_config.gil_release),
        (module_name ++ "/py.typed", "") ]
  let dist_info_name := name ++ "-" ++ version ++ ".dist-info"
  let mcw := create_wheel_metadata metadata python_tag abi_tag platform_tag
  let staged := payload
    ++ [ (dist_info_name ++ "/METADATA", mcw.1),
         (dist_info_name ++ "/WHEEL", mcw.2),
         (dist_info_name ++ "/top_level.txt", module_name) ]
  staged ++ [(dist_info_name ++ "/RECORD", create_wheel_record sha256 staged)]

/-! ## Synthetic sources for the scanner theorems

A well-formed export declaration is rendered exactly as the scanner's
pattern expects; "non-matching text" is text over characters at which the
pattern cannot even begin (no whitespace, `/`, `p` or `e`), so the scanner
provably skips it character by character. -/

/-- A synthetic export declaration. -/
structure ZigDecl where
  docLines : List String
  usePub : Bool
  name : String
  paramTexts : List String
  ret : String

/-- Well-formedness of one doc line: no newline, already stripped, not
beginning with a slash (so stripping the `///` marker leaves exactly the
line). -/
def wfDocLineB (l : String) : Bool :=
  l.data.all (fun c => c != '\n') && pyStripList l.data == l.data
    && l.data.head? != some '/'

/-- Well-formedness of one parameter text: no comma (so the comma split
recovers it), no closing parenthesis (so the parameter span ends at the
declaration's own parenthesis), already stripped. -/
def wfParamTextB (t : String) : Bool :=
  t.data.all (fun c => c != ',' && c != ')') && pyStripList t.data == t.data

/-- Well-formedness of a declaration: identifier-shaped non-empty name;
well-formed parameter texts whose last is non-empty (so the rendered
parameter span is already stripped); a brace-free stripped return
spelling; well-formed doc lines. -/
def wfDecl (d : ZigDecl) : Bool :=
  (!d.name.data.isEmpty && d.name.data.all isWordChar)
    && d.paramTexts.all wfParamTextB
    && (d.paramTexts.isEmpty || d.paramTexts.getLast? != some "")
    && (d.ret.data.all (fun c => c != '{') && pyStripList d.ret.data == d.ret.data)
    && d.docLines.all wfDocLineB

/-- A character at which the export pattern cannot start. -/
def inertChar (c : Char) : Bool :=
  !isPySpace c && c != '/' && c != 'p' && c != 'e'

/-- Non-matching filler text: every character is inert. -/
def inertStr (f : String) : Bool :=
  f.data.all inertChar

/-- The rendered doc-comment block. -/
def docRenderChars (ds : List String) : List Char :=
  (ds.map (fun l => '/' :: '/' :: '/' :: (l.data ++ ['\n']))).flatten

/-- The rendered parameter span (parameter texts joined by `", "`). -/
def paramsJoinChars (pts : List String) : List Char :=
  joinWith [',', ' '] (pts.map String.data)

/-- The rendered declaration, up to and including its opening brace. -/
def renderDeclChars (d : ZigDecl) : List Char :=
  docRenderChars d.docLines
  ++ (if d.usePub then ['p', 'u', 'b', ' '] else [])
  ++ ['e', 'x', 'p', 'o', 'r', 't', ' ', 'f', 'n', ' ']
  ++ d.name.data ++ ['(']
  ++ paramsJoinChars d.paramTexts
  ++ [')', ' '] ++ d.ret.data ++ [' ', '{']

/-- The raw capture groups the matcher produces for a rendered
declaration. -/
def rawMatchOf (d : ZigDecl) : RawMatch :=
  ⟨docRenderChars d.docLines, d.name.data, paramsJoinChars d.paramTexts,
    ' ' :: (d.ret.data ++ [' '])⟩

/-- The specification's per-parameter rule: strip; skip the empty string,
the variadic marker and compile-time-qualified parameters; split the rest
on the first colon into a whitespace-trimmed (name, type) pair. -/
def specParam (t : String) : Option (String × String) :=
  let s := pyStripStr t
  if s = "" then none
  else if s = "..." then none
  else if isPreB "comptime" s then none
  else
    match splitFirst ':' s.data with
    | some (n, ty) => some (⟨pyStripList n⟩, ⟨pyStripList ty⟩)
    | none => none

/-- The record the specification prescribes for a well-formed declaration:
its name, its stripped return spelling, its processed parameter list, its
doc lines joined by newlines, and the always-true lock flag. -/
def expectedRecord (d : ZigDecl) : ZigFunction :=
  { name := d.name
    return_type := d.ret
    params := d.paramTexts.filterMap specParam
    doc := ⟨joinWith ['\n'] (d.docLines.map String.data)⟩
    release_gil := true }

/-- A source text: leading filler, then each rendered declaration followed
by its trailing filler (which stands for the function body and everything
up to the next declaration). -/
def sourceChars (first : String) (groups : List (ZigDecl × String)) : List Char :=
  first.data ++ (groups.map (fun g => renderDeclChars g.1 ++ g.2.data)).flatten

/-- A concrete documented declaration exercising doc comments, `pub`, an
empty parameter, the variadic marker and a `comptime` parameter. -/
def exampleDeclAdd : ZigDecl :=
  { docLines := ["Adds two numbers."], usePub := true, name := "add",
    paramTexts := ["a: i32", "b: i32", "", "...", "comptime T: type"],
    ret := "i32" }

/-- A second concrete declaration with no doc comment. -/
def exampleDeclMul : ZigDecl :=
  { docLines := [], usePub := false, name := "mul2",
    paramTexts := ["x: f64"], ret := "f64" }

/-- Two declarations interleaved with inert filler text. -/
def exampleGroups : List (ZigDecl × String) :=
  [(exampleDeclAdd, "0;\x7d"), (exampleDeclMul, "\x7d")]

/-- A concrete declaration whose parameters all lack a colon. -/
def exampleDeclNoColon : ZigDecl :=
  { docLines := [], usePub := false, name := "f", paramTexts := ["a", "b"], ret := "i32" }

/-- Project metadata whose single author has an email but no name — a
valid PEP 621 author table. -/
def exampleMetadataNoName : ProjectMetadata :=
  { name := "my-ext", version := "1.2.0", description := "", requires_python := "",
    license := .pdict [], authors := [.adict "" "x@example.com"],
    classifiers := [], dependencies := [], urls := [] }

/-! # Theorems -/

/-! ### Matcher progress and fuel adequacy -/

theorem consumeLit_length {l cs r : List Char} (h : consumeLit l cs = some r) :
    r.length ≤ cs.length := by
  induction l generalizing cs with
  | nil =>
    simp only [consumeLit, Option.some.injEq] at h
    subst h
    exact Nat.le_refl _
  | cons a l ih =>
    cases cs with
    | nil => simp [consumeLit] at h
    | cons b cs =>
      simp only [consumeLit] at h
      split at h
      · exact Nat.le_trans (ih h) (by simp)
      · exact absurd h (by simp)

theorem dropWhile_length_le (p : Char → Bool) (l : List Char) :
    (l.dropWhile p).length ≤ l.length := by
  induction l with
  | nil => simp
  | cons a l ih =>
    by_cases h : p a
    · rw [List.dropWhile_cons_of_pos h]; exact Nat.le_trans ih (by simp)
    · rw [List.dropWhile_cons_of_neg h]

theorem dropWhile_cons_length {p : Char → Bool} {l t : List Char} {a : Char}
    (h : l.dropWhile p = a :: t) : t.length < l.length := by
  have := dropWhile_length_le p l
  rw [h] at this
  simp at this
  omega

theorem docLine_length {cs line rest : List Char}
    (h : docLine cs = some (line, rest)) : rest.length ≤ cs.length := by
  unfold docLine at h
  cases hc : consumeLit ['/', '/', '/'] cs with
  | none => rw [hc] at h; exact absurd h (by simp)
  | some r =>
    rw [hc] at h
    simp only [] at h
    have hr := consumeLit_length hc
    cases hd : r.dropWhile (fun c => c != '\n') with
    | nil => rw [hd] at h; exact absurd h (by simp)
    | cons x xs =>
      rw [hd] at h
      have hxs : xs.length < r.length := dropWhile_cons_length hd
      split at h
      · next heq =>
        injection heq with hx1 hx2
        simp only [Option.some.injEq, Prod.mk.injEq] at h
        obtain ⟨-, rfl⟩ := h
        subst hx2
        omega
      · exact absurd h (by simp)

theorem docGroupAux_snd_length (fuel : Nat) (cs : List Char) :
    (docGroupAux fuel cs).2.length ≤ cs.length := by
  induction fuel generalizing cs with
  | zero => simp [docGroupAux]
  | succ fuel ih =>
    simp only [docGroupAux]
    cases hl : docLine cs with
    | none => simp
    | some pr =>
      obtain ⟨line, rest⟩ := pr
      have h1 := docLine_length hl
      have h2 := ih rest
      simp only []
      cases hg : docGroupAux fuel rest with
      | mk more rest2 =>
        rw [hg] at h2
        exact Nat.le_trans h2 h1

theorem pubOpt_length (cs : List Char) : (pubOpt cs).length ≤ cs.length := by
  unfold pubOpt
  cases hc : consumeLit ['p', 'u', 'b'] cs with
  | none => simp
  | some r =>
    cases r with
    | nil => simp
    | cons c rest =>
      have hr := consumeLit_length hc
      by_cases hsp : isPySpace c
      · simp only [hsp, if_true]
        exact Nat.le_trans (dropWhile_length_le _ _) hr
      · simp [hsp]

theorem matchAt_some_length {cs rest : List Char} {m : RawMatch}
    (h : matchExportAt cs = some (m, rest)) : rest.length < cs.length := by
  unfold matchExportAt at h
  simp only [] at h
  cases hdg : docGroupAux cs.length cs with
  | mk doc r1 =>
    rw [hdg] at h
    simp only [] at h
    have hr1 : r1.length ≤ cs.length := by
      have := docGroupAux_snd_length cs.length cs; rw [hdg] at this; exact this
    have hr2 : (r1.dropWhile isPySpace).length ≤ r1.length := dropWhile_length_le _ _
    have hr3 : (pubOpt (r1.dropWhile isPySpace)).length ≤ (r1.dropWhile isPySpace).length :=
      pubOpt_length _
    cases hex : consumeLit ['e', 'x', 'p', 'o', 'r', 't'] (pubOpt (r1.dropWhile isPySpace)) with
    | none => rw [hex] at h; exact absurd h (by simp)
    | some r4 =>
      rw [hex] at h
      simp only [] at h
      have hr4 := consumeLit_length hex
      cases r4 with
      | nil => exact absurd h (by simp)
      | cons c4 r4' =>
        simp only [] at h
        by_cases hc4 : isPySpace c4
        · rw [if_pos hc4] at h
          have hr5 : ((c4 :: r4').dropWhile isPySpace).length ≤ (c4 :: r4').length :=
            dropWhile_length_le _ _
          cases hfn : consumeLit ['f', 'n'] ((c4 :: r4').dropWhile isPySpace) with
          | none => rw [hfn] at h; exact absurd h (by simp)
          | some r6 =>
            rw [hfn] at h
            simp only [] at h
            have hr6 := consumeLit_length hfn
            cases r6 with
            | nil => exact absurd h (by simp)
            | cons c6 r6' =>
              simp only [] at h
              by_cases hc6 : isPySpace c6
              · rw [if_pos hc6] at h
                have hr7 : ((c6 :: r6').dropWhile isPySpace).length ≤ (c6 :: r6').length :=
                  dropWhile_length_le _ _
                have hr8 : (((c6 :: r6').dropWhile isPySpace).dropWhile isWordChar).length
                    ≤ ((c6 :: r6').dropWhile isPySpace).length := dropWhile_length_le _ _
                by_cases hne : (((c6 :: r6').dropWhile isPySpace).takeWhile isWordChar).isEmpty
                · rw [if_pos hne] at h; exact absurd h (by simp)
                · rw [if_neg hne] at h
                  cases hp : (((c6 :: r6').dropWhile isPySpace).dropWhile isWordChar).dropWhile
                      isPySpace with
                  | nil => rw [hp] at h; exact absurd h (by simp)
                  | cons cp r10 =>
                    rw [hp] at h
                    have hr10 : r10.length
                        < (((c6 :: r6').dropWhile isPySpace).dropWhile isWordChar).length := by
                      have := dropWhile_length_le isPySpace
                        (((c6 :: r6').dropWhile isPySpace).dropWhile isWordChar)
                      rw [hp] at this; simp at this; omega
                    split at h
                    · next cp' r10' heq =>
                      injection heq with hcp hr10'
                      subst hr10'
                      cases hrp : r10.dropWhile (fun c => c != ')') with
                      | nil => rw [hrp] at h; exact absurd h (by simp)
                      | cons cq r12 =>
                        rw [hrp] at h
                        have hr12 : r12.length < r10.length := dropWhile_cons_length hrp
                        split at h
                        · next cq' r12' heq2 =>
                          injection heq2 with hcq hr12'
                          subst hr12'
                          cases hbr : r12.dropWhile (fun c => c != '{') with
                          | nil => rw [hbr] at h; exact absurd h (by simp)
                          | cons cb r14 =>
                            rw [hbr] at h
                            have hr14 : r14.length < r12.length := dropWhile_cons_length hbr
                            split at h
                            · next cb' r14' heq3 =>
                              injection heq3 with hcb hr14'
                              subst hr14'
                              by_cases hbe : (r12.takeWhile (fun c => c != '{')).isEmpty
                              · rw [if_pos hbe] at h; exact absurd h (by simp)
                              · rw [if_neg hbe] at h
                                simp only [Option.some.injEq, Prod.mk.injEq] at h
                                obtain ⟨-, rfl⟩ := h
                                omega
                            · exact absurd h (by simp)
                        · exact absurd h (by simp)
                    · exact absurd h (by simp)
              · rw [if_neg hc6] at h; exact absurd h (by simp)
        · rw [if_neg hc4] at h; exact absurd h (by simp)

theorem findAllAux_congr (n : Nat) : ∀ (m : Nat) (cs : List Char),
    cs.length ≤ n → cs.length ≤ m → findAllAux n cs = findAllAux m cs := by
  induction n with
  | zero =>
    intro m cs h1 _
    have : cs = [] := by cases cs with
      | nil => rfl
      | cons a l => simp at h1
    subst this
    cases m <;> rfl
  | succ n ih =>
    intro m cs h1 h2
    cases cs with
    | nil => cases m <;> rfl
    | cons c cs' =>
      cases m with
      | zero => simp at h2
      | succ m' =>
        simp only [findAllAux]
        cases hm : matchExportAt (c :: cs') with
        | none =>
          exact ih m' cs' (by simp at h1; omega) (by simp at h2; omega)
        | some pr =>
          obtain ⟨mm, rest⟩ := pr
          have hlt := matchAt_some_length hm
          simp only [List.length_cons] at h1 h2 hlt
          simp only []
          rw [ih m' rest (by omega) (by omega)]

theorem findAll_cons_none {c : Char} {cs : List Char}
    (h : matchExportAt (c :: cs) = none) : findAll (c :: cs) = findAll cs := by
  simp only [findAll, List.length_cons, findAllAux, h]

theorem findAll_cons_some {c : Char} {cs rest : List Char} {m : RawMatch}
    (h : matchExportAt (c :: cs) = some (m, rest)) :
    findAll (c :: cs) = m :: findAll rest := by
  simp only [findAll, List.length_cons, findAllAux, h]
  have hlt := matchAt_some_length h
  simp only [List.length_cons] at hlt
  rw [findAllAux_congr cs.length rest.length rest (by omega) (by omega)]

/-! ### Skipping non-matching text -/

theorem docGroupAux_eq_of_docLine_none {cs : List Char} (h : docLine cs = none)
    (fuel : Nat) : docGroupAux fuel cs = ([], cs) := by
  cases fuel <;> simp [docGroupAux, h]

theorem docLine_none_of_head {c : Char} {cs : List Char} (h : c ≠ '/') :
    docLine (c :: cs) = none := by
  unfold docLine
  simp [consumeLit, h]

theorem consumeLit_head_none {a c : Char} {l cs : List Char} (h : c ≠ a) :
    consumeLit (a :: l) (c :: cs) = none := by
  simp [consumeLit, h]

theorem matchExportAt_inert {c : Char} {cs : List Char} (h : inertChar c = true) :
    matchExportAt (c :: cs) = none := by
  unfold inertChar at h
  simp only [Bool.and_eq_true, bne_iff_ne, ne_eq, Bool.not_eq_true'] at h
  obtain ⟨⟨⟨hws, hsl⟩, hp⟩, he⟩ := h
  unfold matchExportAt
  simp only []
  rw [docGroupAux_eq_of_docLine_none (docLine_none_of_head hsl)]
  simp only []
  rw [List.dropWhile_cons_of_neg (by simp [hws])]
  have hpub : pubOpt (c :: cs) = c :: cs := by
    unfold pubOpt; rw [consumeLit_head_none hp]
  rw [hpub, consumeLit_head_none he]

theorem findAll_inert_cons {c : Char} {cs : List Char} (h : inertChar c = true) :
    findAll (c :: cs) = findAll cs :=
  findAll_cons_none (matchExportAt_inert h)

theorem findAll_inert_append {f cs : List Char} (h : ∀ c ∈ f, inertChar c = true) :
    findAll (f ++ cs) = findAll cs := by
  induction f with
  | nil => simp
  | cons a f ih =>
    rw [List.cons_append, findAll_inert_cons (h a (by simp))]
    exact ih (fun c hc => h c (by simp [hc]))

/-! ### Matching a rendered declaration -/

theorem consumeLit_append (l cs : List Char) : consumeLit l (l ++ cs) = some cs := by
  induction l with
  | nil => rfl
  | cons a l ih => simp [consumeLit, ih]

theorem takeWhile_append_of_all {p : Char → Bool} {xs : List Char} {y : Char} {ys : List Char}
    (hx : ∀ a ∈ xs, p a = true) (hy : p y = false) :
    (xs ++ y :: ys).takeWhile p = xs := by
  induction xs with
  | nil => simp [List.takeWhile_cons_of_neg, hy]
  | cons a xs ih =>
    rw [List.cons_append, List.takeWhile_cons_of_pos (hx a (by simp))]
    rw [ih (fun b hb => hx b (by simp [hb]))]

theorem dropWhile_append_of_all {p : Char → Bool} {xs : List Char} {y : Char} {ys : List Char}
    (hx : ∀ a ∈ xs, p a = true) (hy : p y = false) :
    (xs ++ y :: ys).dropWhile p = y :: ys := by
  induction xs with
  | nil => simp [List.dropWhile_cons_of_neg, hy]
  | cons a xs ih =>
    rw [List.cons_append, List.dropWhile_cons_of_pos (hx a (by simp))]
    exact ih (fun b hb => hx b (by simp [hb]))

theorem docLine_render {l rest : List Char} (hl : ∀ c ∈ l, c ≠ '\n') :
    docLine ('/' :: '/' :: '/' :: (l ++ '\n' :: rest))
      = some ('/' :: '/' :: '/' :: (l ++ ['\n']), rest) := by
  unfold docLine
  have h3 : consumeLit ['/', '/', '/'] ('/' :: '/' :: '/' :: (l ++ '\n' :: rest))
      = some (l ++ '\n' :: rest) := by simp [consumeLit]
  rw [h3]
  simp only []
  rw [takeWhile_append_of_all (p := fun c => c != '\n')
        (fun a ha => by simpa using hl a ha) (by simp)]
  rw [dropWhile_append_of_all (p := fun c => c != '\n')
        (fun a ha => by simpa using hl a ha) (by simp)]
  rfl

theorem docGroupAux_render {ds : List String} {rest : List Char} {fuel : Nat}
    (hfuel : ds.length ≤ fuel)
    (hds : ∀ l ∈ ds, ∀ c ∈ l.data, c ≠ '\n')
    (hrest : docLine rest = none) :
    docGroupAux fuel (docRenderChars ds ++ rest) = (docRenderChars ds, rest) := by
  induction ds generalizing fuel with
  | nil =>
    simp only [docRenderChars, List.map_nil, List.flatten_nil, List.nil_append]
    exact docGroupAux_eq_of_docLine_none hrest fuel
  | cons l ds ih =>
    cases fuel with
    | zero => simp at hfuel
    | succ fuel =>
      have hdr : docRenderChars (l :: ds) ++ rest
          = '/' :: '/' :: '/' :: (l.data ++ '\n' :: (docRenderChars ds ++ rest)) := by
        simp [docRenderChars, List.append_assoc]
      rw [hdr]
      simp only [docGroupAux]
      rw [docLine_render (hds l (by simp))]
      simp only []
      rw [ih (by simpa using Nat.lt_succ_iff.mp (Nat.lt_of_lt_of_le (by simp) hfuel))
            (fun x hx => hds x (by simp [hx]))]
      simp [docRenderChars, List.append_assoc]

theorem wordChar_not_space {c : Char} (h : isWordChar c = true) :
    isPySpace c = false := by
  by_contra hn
  have hsp : isPySpace c = true := by
    cases hx : isPySpace c
    · exact absurd hx hn
    · rfl
  simp only [isPySpace, Bool.or_eq_true, beq_iff_eq] at hsp
  rcases hsp with ((((rfl | rfl) | rfl) | rfl) | rfl) | rfl <;> simp [isWordChar] at h

theorem docRender_length_ge (ds : List String) :
    ds.length ≤ (docRenderChars ds).length := by
  induction ds with
  | nil => simp [docRenderChars]
  | cons l ds ih =>
    simp only [docRenderChars, List.map_cons, List.flatten_cons, List.length_append,
      List.length_cons]
    simp only [docRenderChars] at ih
    omega

theorem joinWith_all {p : Char → Bool} {sep : List Char} {pieces : List (List Char)}
    (hsep : ∀ c ∈ sep, p c = true) (hp : ∀ x ∈ pieces, ∀ c ∈ x, p c = true) :
    ∀ c ∈ joinWith sep pieces, p c = true := by
  induction pieces with
  | nil => simp [joinWith]
  | cons x xs ih =>
    cases xs with
    | nil => simpa [joinWith] using hp x (by simp)
    | cons y ys =>
      intro c hc
      simp only [joinWith, List.mem_append] at hc
      rcases hc with (hc | hc) | hc
      · exact hp x (by simp) c hc
      · exact hsep c hc
      · exact ih (fun z hz => hp z (by simp [hz])) c hc

theorem pubOpt_false_case {cs : List Char} (h : cs.head? ≠ some 'p') :
    pubOpt cs = cs := by
  unfold pubOpt
  cases cs with
  | nil => rfl
  | cons c cs =>
    have : c ≠ 'p' := by intro hc; exact h (by simp [hc])
    rw [consumeLit_head_none this]

theorem pubOpt_true_case {x : List Char} (h : x.head? ≠ some ' ' → x.dropWhile isPySpace = x) :
    pubOpt (['p', 'u', 'b', ' '] ++ x) = x.dropWhile isPySpace := by
  unfold pubOpt
  have hc : consumeLit ['p', 'u', 'b'] (['p', 'u', 'b', ' '] ++ x) = some (' ' :: x) := by
    have : (['p', 'u', 'b', ' '] ++ x) = ['p', 'u', 'b'] ++ (' ' :: x) := by simp
    rw [this, consumeLit_append]
  rw [hc]
  simp only []
  rw [if_pos (show isPySpace ' ' = true by decide)]
  rw [List.dropWhile_cons_of_pos (show isPySpace ' ' = true by decide)]

/-- Matching the rendered declaration at the start of any text succeeds
with exactly the rendered capture groups. -/
theorem matchExportAt_render {d : ZigDecl} {rest : List Char}
    (hname1 : d.name.data ≠ [])
    (hname2 : ∀ c ∈ d.name.data, isWordChar c = true)
    (hpts : ∀ t ∈ d.paramTexts, ∀ c ∈ t.data, c ≠ ')')
    (hret : ∀ c ∈ d.ret.data, c ≠ '{')
    (hdocs : ∀ l ∈ d.docLines, ∀ c ∈ l.data, c ≠ '\n') :
    matchExportAt (renderDeclChars d ++ rest) = some (rawMatchOf d, rest) := by
  have hform : renderDeclChars d ++ rest
      = docRenderChars d.docLines
        ++ ((if d.usePub then ['p', 'u', 'b', ' '] else [])
          ++ (['e', 'x', 'p', 'o', 'r', 't'] ++ (' ' :: (['f', 'n'] ++ (' ' :: (d.name.data
            ++ ('(' :: (paramsJoinChars d.paramTexts
              ++ (')' :: ((' ' :: (d.ret.data ++ [' '])) ++ ('{' :: rest))))))))))) := by
    simp [renderDeclChars, List.append_assoc]
  set REST1 := (if d.usePub then ['p', 'u', 'b', ' '] else [])
    ++ (['e', 'x', 'p', 'o', 'r', 't'] ++ (' ' :: (['f', 'n'] ++ (' ' :: (d.name.data
      ++ ('(' :: (paramsJoinChars d.paramTexts
        ++ (')' :: ((' ' :: (d.ret.data ++ [' '])) ++ ('{' :: rest)))))))))) with hREST1
  have hr1head : REST1.head? = some (if d.usePub then 'p' else 'e') := by
    rw [hREST1]; cases d.usePub <;> simp
  have hdlnone : docLine REST1 = none := by
    cases hR : REST1 with
    | nil => simp [hR] at hr1head
    | cons a as =>
      rw [hR] at hr1head
      simp only [List.head?_cons, Option.some.injEq] at hr1head
      subst hr1head
      apply docLine_none_of_head
      cases d.usePub <;> decide
  rw [hform]
  unfold matchExportAt
  simp only []
  rw [docGroupAux_render
        (Nat.le_trans (docRender_length_ge d.docLines) (by simp))
        (fun l hl c hc => hdocs l hl c hc) hdlnone]
  simp only []
  have hdrop1 : REST1.dropWhile isPySpace = REST1 := by
    cases hR : REST1 with
    | nil => rfl
    | cons a as =>
      rw [hR] at hr1head
      simp only [List.head?_cons, Option.some.injEq] at hr1head
      subst hr1head
      apply List.dropWhile_cons_of_neg
      cases d.usePub <;> decide
  rw [hdrop1]
  have hpub : pubOpt REST1
      = ['e', 'x', 'p', 'o', 'r', 't'] ++ (' ' :: (['f', 'n'] ++ (' ' :: (d.name.data
          ++ ('(' :: (paramsJoinChars d.paramTexts
            ++ (')' :: ((' ' :: (d.ret.data ++ [' '])) ++ ('{' :: rest))))))))) := by
    rw [hREST1]
    cases hu : d.usePub
    · simp only [Bool.false_eq_true, if_false, List.nil_append]
      exact pubOpt_false_case (by simp)
    · rw [if_pos rfl]
      rw [pubOpt_true_case (by intro _; apply List.dropWhile_cons_of_neg; decide)]
      apply List.dropWhile_cons_of_neg
      decide
  rw [hpub]
  have hexp : ∀ x : List Char,
      consumeLit ['e', 'x', 'p', 'o', 'r', 't'] ('e' :: 'x' :: 'p' :: 'o' :: 'r' :: 't' :: x)
        = some x := by
    intro x; simp [consumeLit]
  have hfn2 : ∀ x : List Char,
      consumeLit ['f', 'n'] ('f' :: 'n' :: x) = some x := by
    intro x; simp [consumeLit]
  simp only [List.cons_append, List.nil_append, List.append_assoc]
  rw [hexp]
  simp only []
  rw [if_pos (show isPySpace ' ' = true by decide)]
  rw [List.dropWhile_cons_of_pos (show isPySpace ' ' = true by decide)]
  rw [List.dropWhile_cons_of_neg (show ¬ isPySpace 'f' = true by decide)]
  rw [hfn2]
  simp only []
  rw [if_pos (show isPySpace ' ' = true by decide)]
  rw [List.dropWhile_cons_of_pos (show isPySpace ' ' = true by decide)]
  obtain ⟨n0, ntail, hn⟩ : ∃ n0 ntail, d.name.data = n0 :: ntail := by
    cases hx : d.name.data with
    | nil => exact absurd hx hname1
    | cons a b => exact ⟨a, b, rfl⟩
  have hn0w : isWordChar n0 = true := hname2 n0 (by rw [hn]; simp)
  rw [hn]
  rw [List.cons_append, List.dropWhile_cons_of_neg (by simp [wordChar_not_space hn0w])]
  rw [← List.cons_append, ← hn]
  have hnametake : (d.name.data ++ '(' :: (paramsJoinChars d.paramTexts
      ++ ')' :: ' ' :: (d.ret.data ++ ' ' :: '{' :: rest))).takeWhile isWordChar
      = d.name.data :=
    takeWhile_append_of_all hname2 (by decide)
  have hnamedrop : (d.name.data ++ '(' :: (paramsJoinChars d.paramTexts
      ++ ')' :: ' ' :: (d.ret.data ++ ' ' :: '{' :: rest))).dropWhile isWordChar
      = '(' :: (paramsJoinChars d.paramTexts
        ++ ')' :: ' ' :: (d.ret.data ++ ' ' :: '{' :: rest)) :=
    dropWhile_append_of_all hname2 (by decide)
  rw [hnametake, hnamedrop]
  rw [if_neg (by simp [List.isEmpty_iff, hname1])]
  rw [List.dropWhile_cons_of_neg (show ¬ isPySpace '(' = true by decide)]
  simp only []
  have hjoin : ∀ c ∈ paramsJoinChars d.paramTexts, (c != ')') = true := by
    apply joinWith_all
    · decide
    · intro x hx c hc
      obtain ⟨t, ht, rfl⟩ := List.mem_map.mp hx
      simpa using hpts t ht c hc
  have hptake : (paramsJoinChars d.paramTexts
      ++ ')' :: ' ' :: (d.ret.data ++ ' ' :: '{' :: rest)).takeWhile
        (fun c => c != ')') = paramsJoinChars d.paramTexts :=
    takeWhile_append_of_all hjoin (by decide)
  have hpdrop : (paramsJoinChars d.paramTexts
      ++ ')' :: ' ' :: (d.ret.data ++ ' ' :: '{' :: rest)).dropWhile
        (fun c => c != ')') = ')' :: ' ' :: (d.ret.data ++ ' ' :: '{' :: rest) :=
    dropWhile_append_of_all hjoin (by decide)
  rw [hptake, hpdrop]
  simp only []
  rw [show ' ' :: (d.ret.data ++ ' ' :: '{' :: rest)
      = (' ' :: (d.ret.data ++ [' '])) ++ '{' :: rest from by simp]
  have hbetween : ∀ c ∈ ' ' :: (d.ret.data ++ [' ']), (c != '{') = true := by
    intro c hc
    rcases List.mem_cons.mp hc with rfl | hc2
    · decide
    · rcases List.mem_append.mp hc2 with hc3 | hc3
      · simpa using hret c hc3
      · simp only [List.mem_singleton] at hc3
        subst hc3
        decide
  have hbtake : ((' ' :: (d.ret.data ++ [' '])) ++ ('{' :: rest)).takeWhile
      (fun c => c != '{') = ' ' :: (d.ret.data ++ [' ']) :=
    takeWhile_append_of_all hbetween (by decide)
  have hbdrop : ((' ' :: (d.ret.data ++ [' '])) ++ ('{' :: rest)).dropWhile
      (fun c => c != '{') = '{' :: rest :=
    dropWhile_append_of_all hbetween (by decide)
  rw [hbtake, hbdrop]
  simp only []
  rw [if_neg (by simp)]
  rfl

/-- The components of `wfDecl` needed by the matcher. -/
theorem wfDecl_match_facts {d : ZigDecl} (h : wfDecl d = true) :
    d.name.data ≠ [] ∧ (∀ c ∈ d.name.data, isWordChar c = true)
      ∧ (∀ t ∈ d.paramTexts, ∀ c ∈ t.data, c ≠ ')')
      ∧ (∀ c ∈ d.ret.data, c ≠ '{')
      ∧ (∀ l ∈ d.docLines, ∀ c ∈ l.data, c ≠ '\n') := by
  simp only [wfDecl, Bool.and_eq_true] at h
  obtain ⟨⟨⟨⟨⟨hne, hnw⟩, hpt⟩, -⟩, ⟨hrb, -⟩⟩, hdl⟩ := h
  refine ⟨?_, ?_, ?_, ?_, ?_⟩
  · simpa [List.isEmpty_iff] using hne
  · intro c hc; exact List.all_eq_true.mp hnw c hc
  · intro t ht c hc
    have := List.all_eq_true.mp hpt t ht
    simp only [wfParamTextB, Bool.and_eq_true] at this
    have := List.all_eq_true.mp this.1 c hc
    simp only [Bool.and_eq_true, bne_iff_ne, ne_eq] at this
    exact this.2
  · intro c hc
    have := List.all_eq_true.mp hrb c hc
    simpa using this
  · intro l hl c hc
    have := List.all_eq_true.mp hdl l hl
    simp only [wfDocLineB, Bool.and_eq_true] at this
    have := List.all_eq_true.mp this.1.1 c hc
    simpa using this

theorem renderDeclChars_ne_nil (d : ZigDecl) : renderDeclChars d ≠ [] := by
  unfold renderDeclChars
  intro h
  have := congrArg List.length h
  simp at this

theorem findAll_render_cons {d : ZigDecl} {rest : List Char} (h : wfDecl d = true) :
    findAll (renderDeclChars d ++ rest) = rawMatchOf d :: findAll rest := by
  obtain ⟨h1, h2, h3, h4, h5⟩ := wfDecl_match_facts h
  have hm : matchExportAt (renderDeclChars d ++ rest) = some (rawMatchOf d, rest) :=
    matchExportAt_render h1 h2 h3 h4 h5
  cases hcc : renderDeclChars d with
  | nil => exact absurd hcc (renderDeclChars_ne_nil d)
  | cons c cs =>
    rw [hcc] at hm
    rw [List.cons_append] at hm ⊢
    exact findAll_cons_some hm

theorem findAll_groups (groups : List (ZigDecl × String))
    (hg : ∀ g ∈ groups, wfDecl g.1 = true ∧ inertStr g.2 = true) :
    findAll ((groups.map (fun g => renderDeclChars g.1 ++ g.2.data)).flatten)
      = groups.map (fun g => rawMatchOf g.1) := by
  induction groups with
  | nil => simp [findAll, findAllAux]
  | cons g gs ih =>
    simp only [List.map_cons, List.flatten_cons, List.append_assoc]
    rw [findAll_render_cons (hg g (by simp)).1]
    rw [findAll_inert_append
          (List.all_eq_true.mp ((hg g (by simp)).2) )]
    rw [ih (fun x hx => hg x (by simp [hx]))]

theorem findAll_sourceChars (first : String) (groups : List (ZigDecl × String))
    (hf : inertStr first = true)
    (hg : ∀ g ∈ groups, wfDecl g.1 = true ∧ inertStr g.2 = true) :
    findAll (sourceChars first groups) = groups.map (fun g => rawMatchOf g.1) := by
  unfold sourceChars
  rw [findAll_inert_append (List.all_eq_true.mp hf)]
  exact findAll_groups groups hg

/-! ### Stripping and splitting -/

theorem stringMk_data (s : String) : (⟨s.data⟩ : String) = s := by
  cases s; rfl

theorem stringMk_inj {a b : List Char} : (⟨a⟩ : String) = ⟨b⟩ ↔ a = b := by
  constructor
  · intro h; exact congrArg String.data h
  · intro h; rw [h]

theorem pyStrip_cons_space {c : Char} {l : List Char} (h : isPySpace c = true) :
    pyStripList (c :: l) = pyStripList l := by
  unfold pyStripList
  rw [List.dropWhile_cons_of_pos h]

theorem dropWhile_append_all {p : Char → Bool} {l m : List Char}
    (h : ∀ a ∈ l, p a = true) : (l ++ m).dropWhile p = m.dropWhile p := by
  induction l with
  | nil => simp
  | cons a l ih =>
    rw [List.cons_append, List.dropWhile_cons_of_pos (h a (by simp))]
    exact ih (fun b hb => h b (by simp [hb]))

theorem dropWhile_append_ne_nil {p : Char → Bool} {l m : List Char}
    (h : l.dropWhile p ≠ []) : (l ++ m).dropWhile p = l.dropWhile p ++ m := by
  induction l with
  | nil => simp at h
  | cons a l ih =>
    by_cases hp : p a
    · rw [List.cons_append, List.dropWhile_cons_of_pos hp,
        List.dropWhile_cons_of_pos hp]
      rw [List.dropWhile_cons_of_pos hp] at h
      exact ih h
    · rw [List.cons_append, List.dropWhile_cons_of_neg hp,
        List.dropWhile_cons_of_neg hp, List.cons_append]

theorem pyStrip_append_space {c : Char} {l : List Char} (h : isPySpace c = true) :
    pyStripList (l ++ [c]) = pyStripList l := by
  unfold pyStripList
  by_cases hl : l.dropWhile isPySpace = []
  · rw [dropWhile_append_all (List.dropWhile_eq_nil_iff.mp hl), hl]
    rw [List.dropWhile_cons_of_pos h]
    rfl
  · rw [dropWhile_append_ne_nil hl]
    rw [List.reverse_append]
    simp only [List.reverse_cons, List.reverse_nil, List.nil_append, List.singleton_append]
    rw [List.dropWhile_cons_of_pos h]

theorem pyStrip_length_le (l : List Char) : (pyStripList l).length ≤ l.length := by
  unfold pyStripList
  rw [List.length_reverse]
  calc ((l.dropWhile isPySpace).reverse.dropWhile isPySpace).length
      ≤ (l.dropWhile isPySpace).reverse.length := dropWhile_length_le _ _
    _ = (l.dropWhile isPySpace).length := List.length_reverse _
    _ ≤ l.length := dropWhile_length_le _ _

theorem strip_self_head {l : List Char} {c : Char} {t : List Char}
    (hs : pyStripList l = l) (hc : l = c :: t) : isPySpace c = false := by
  by_contra hn
  have hws : isPySpace c = true := by
    cases hx : isPySpace c
    · exact absurd hx hn
    · rfl
  have h1 : pyStripList l = pyStripList t := by rw [hc]; exact pyStrip_cons_space hws
  have h2 := pyStrip_length_le t
  rw [hs] at h1
  have := congrArg List.length h1
  rw [hc] at this
  simp at this
  omega

theorem strip_self_last {l : List Char} {c : Char}
    (hs : pyStripList l = l) (hc : l.getLast? = some c) : isPySpace c = false := by
  by_contra hn
  have hws : isPySpace c = true := by
    cases hx : isPySpace c
    · exact absurd hx hn
    · rfl
  obtain ⟨init, rfl⟩ : ∃ init, l = init ++ [c] := by
    cases hl : l with
    | nil => rw [hl] at hc; simp at hc
    | cons a as =>
      refine ⟨(a :: as).dropLast, ?_⟩
      rw [hl] at hc
      conv_lhs => rw [← List.dropLast_append_getLast (l := a :: as) (by simp)]
      rw [List.getLast?_eq_getLast (a :: as) (by simp)] at hc
      simp only [Option.some.injEq] at hc
      rw [hc]
  have h1 : pyStripList (init ++ [c]) = pyStripList init := pyStrip_append_space hws
  have h2 := pyStrip_length_le init
  rw [hs] at h1
  have := congrArg List.length h1
  simp at this
  omega

theorem dropWhile_eq_self_of_head {p : Char → Bool} {l : List Char}
    (h : ∀ c, l.head? = some c → p c = false) : l.dropWhile p = l := by
  cases l with
  | nil => rfl
  | cons a as =>
    apply List.dropWhile_cons_of_neg
    simp [h a rfl]

theorem pyStrip_eq_self {l : List Char}
    (h1 : ∀ c, l.head? = some c → isPySpace c = false)
    (h2 : ∀ c, l.getLast? = some c → isPySpace c = false) :
    pyStripList l = l := by
  unfold pyStripList
  rw [dropWhile_eq_self_of_head h1]
  rw [dropWhile_eq_self_of_head (fun c hc => h2 c (by rwa [← List.head?_reverse]))]
  exact List.reverse_reverse l

theorem splitOnChar_ne_nil (sep : Char) (l : List Char) : splitOnChar sep l ≠ [] := by
  induction l with
  | nil => simp [splitOnChar]
  | cons c cs ih =>
    simp only [splitOnChar]
    split
    · simp
    · cases hx : splitOnChar sep cs with
      | nil => exact absurd hx ih
      | cons h t => simp

theorem splitOnChar_cons_sep (sep : Char) (l : List Char) :
    splitOnChar sep (sep :: l) = [] :: splitOnChar sep l := by
  simp [splitOnChar]

theorem splitOnChar_cons_ne {sep c : Char} {l hh : List Char} {tt : List (List Char)}
    (h : c ≠ sep) (hsplit : splitOnChar sep l = hh :: tt) :
    splitOnChar sep (c :: l) = (c :: hh) :: tt := by
  simp only [splitOnChar]
  rw [if_neg h, hsplit]

theorem split_append_nosep {sep : Char} {xs ys h : List Char} {t : List (List Char)}
    (hys : splitOnChar sep ys = h :: t) (hxs : ∀ c ∈ xs, c ≠ sep) :
    splitOnChar sep (xs ++ ys) = (xs ++ h) :: t := by
  induction xs with
  | nil => simpa using hys
  | cons a xs ih =>
    rw [List.cons_append]
    rw [splitOnChar_cons_ne (hxs a (by simp)) (ih (fun c hc => hxs c (by simp [hc])))]
    rfl

theorem split_nosep {sep : Char} {l : List Char} (h : ∀ c ∈ l, c ≠ sep) :
    splitOnChar sep l = [l] := by
  have : splitOnChar sep (l ++ []) = (l ++ []) :: [] :=
    split_append_nosep (by simp [splitOnChar]) h
  simpa using this

theorem split_joinWith_comma (x : List Char) (xs : List (List Char))
    (h : ∀ p ∈ x :: xs, ∀ c ∈ p, c ≠ ',') :
    splitOnChar ',' (joinWith [',', ' '] (x :: xs)) = x :: xs.map (fun p => ' ' :: p) := by
  induction xs generalizing x with
  | nil =>
    simp only [joinWith, List.map_nil]
    exact split_nosep (h x (by simp))
  | cons y ys ih =>
    have hj : joinWith [',', ' '] (x :: y :: ys)
        = x ++ (',' :: ' ' :: joinWith [',', ' '] (y :: ys)) := by
      simp [joinWith]
    rw [hj]
    have hy := ih y (fun p hp c hc => h p (by simp at hp ⊢; tauto) c hc)
    have hsp : splitOnChar ',' (' ' :: joinWith [',', ' '] (y :: ys))
        = (' ' :: y) :: (ys.map (fun p => ' ' :: p)) :=
      splitOnChar_cons_ne (by decide) hy
    have hcm : splitOnChar ',' (',' :: ' ' :: joinWith [',', ' '] (y :: ys))
        = [] :: (' ' :: y) :: (ys.map (fun p => ' ' :: p)) := by
      rw [splitOnChar_cons_sep, hsp]
    rw [split_append_nosep hcm (h x (by simp))]
    simp

theorem splitFirst_eq_none {sep : Char} {l : List Char} (h : ∀ c ∈ l, c ≠ sep) :
    splitFirst sep l = none := by
  induction l with
  | nil => rfl
  | cons a as ih =>
    simp only [splitFirst]
    rw [if_neg (h a (by simp)), ih (fun c hc => h c (by simp [hc]))]
    rfl

theorem processParam_cons_space (x : List Char) :
    processParam (' ' :: x) = processParam x := by
  unfold processParam
  rw [pyStrip_cons_space (by decide)]

theorem isEmpty_iff_nil {α : Type} (l : List α) : l.isEmpty = true ↔ l = [] := by
  cases l <;> simp

theorem specParam_eq (t : String) : specParam t = processParam t.data := by
  unfold specParam processParam pyStripStr isPreB
  simp only []
  have hemp : ((⟨pyStripList t.data⟩ : String) = "") ↔ pyStripList t.data = [] := by
    constructor
    · intro h; simpa using congrArg String.data h
    · intro h; rw [h]
  have hdots : ((⟨pyStripList t.data⟩ : String) = "...")
      ↔ pyStripList t.data = ['.', '.', '.'] := by
    constructor
    · intro h; simpa using congrArg String.data h
    · intro h; rw [h]
  by_cases h1 : pyStripList t.data = []
  · rw [if_pos (hemp.mpr h1)]
    rw [if_pos ((isEmpty_iff_nil _).mpr h1)]
  · rw [if_neg (fun hx => h1 (hemp.mp hx))]
    by_cases h2 : pyStripList t.data = ['.', '.', '.']
    · rw [if_pos (hdots.mpr h2)]
      rw [if_neg (fun hx => h1 ((isEmpty_iff_nil _).mp hx)), if_pos h2]
    · rw [if_neg (fun hx => h2 (hdots.mp hx))]
      rw [if_neg (fun hx => h1 ((isEmpty_iff_nil _).mp hx)), if_neg h2]

theorem head?_append_left {l m : List Char} (h : l ≠ []) : (l ++ m).head? = l.head? := by
  cases l with
  | nil => exact absurd rfl h
  | cons a as => rfl

theorem joinWith_two_ne_nil {sep : List Char} (hsep : sep ≠ []) (x y : List Char)
    (xs : List (List Char)) : joinWith sep (x :: y :: xs) ≠ [] := by
  intro h
  simp only [joinWith, List.append_eq_nil] at h
  exact hsep h.1.2

theorem joinWith_getLast? {sep : List Char} (hsep : sep ≠ []) :
    ∀ (pieces : List (List Char)) (y : List Char), pieces.getLast? = some y → y ≠ [] →
      (joinWith sep pieces).getLast? = y.getLast? := by
  intro pieces
  induction pieces with
  | nil => intro y h; simp at h
  | cons p ps ih =>
    intro y h hy
    cases ps with
    | nil =>
      simp only [List.getLast?_singleton, Option.some.injEq] at h
      subst h
      rfl
    | cons q qs =>
      have h' : (q :: qs).getLast? = some y := by
        rwa [List.getLast?_cons_cons] at h
      have hj := ih y h' hy
      have hjne : joinWith sep (q :: qs) ≠ [] := by
        intro h0
        rw [h0] at hj
        have : y.getLast? = some (y.getLast hy) := List.getLast?_eq_getLast y hy
        rw [this] at hj
        simp at hj
      simp only [joinWith]
      rw [List.getLast?_append_of_ne_nil _ hjne]
      exact hj

theorem filterMap_specParam (l : List String) :
    l.filterMap specParam = (l.map String.data).filterMap processParam := by
  induction l with
  | nil => rfl
  | cons t ts ih =>
    simp only [List.map_cons, List.filterMap_cons, specParam_eq t, ih]

theorem filterMap_cons_space_map (l : List (List Char)) :
    List.filterMap processParam (l.map (fun p => ' ' :: p)) = List.filterMap processParam l := by
  induction l with
  | nil => rfl
  | cons p ps ih =>
    simp only [List.map_cons, List.filterMap_cons, processParam_cons_space, ih]

theorem processParams_render {pts : List String}
    (hwf : ∀ t ∈ pts, wfParamTextB t = true)
    (hlast : pts = [] ∨ pts.getLast? ≠ some "") :
    processParams (paramsJoinChars pts) = pts.filterMap specParam := by
  cases pts with
  | nil => rfl
  | cons x xs =>
    have hlast' : (x :: xs).getLast? ≠ some "" := by
      rcases hlast with h | h
      · simp at h
      · exact h
    have hlastT : (x :: xs).getLast? = some ((x :: xs).getLast (by simp)) :=
      List.getLast?_eq_getLast _ (by simp)
    set lastT := (x :: xs).getLast (by simp) with hlastTdef
    have hlastmem : lastT ∈ x :: xs := List.getLast_mem _
    have hlastwf := hwf lastT hlastmem
    have hlaststrip : pyStripList lastT.data = lastT.data := by
      simp only [wfParamTextB, Bool.and_eq_true, beq_iff_eq] at hlastwf
      exact hlastwf.2
    have hlastne : lastT.data ≠ [] := by
      intro h0
      apply hlast'
      rw [hlastT]
      have : lastT = "" := by
        cases hlx : lastT with
        | mk d => rw [hlx] at h0; simp at h0; rw [h0]
      rw [this]
    have hpieceslast : ((x :: xs).map String.data).getLast? = some lastT.data := by
      rw [List.getLast?_map, hlastT]
      rfl
    have hJlast : (paramsJoinChars (x :: xs)).getLast? = lastT.data.getLast? := by
      unfold paramsJoinChars
      exact joinWith_getLast? (by simp) _ lastT.data hpieceslast hlastne
    have hJlast_ws : ∀ c, (paramsJoinChars (x :: xs)).getLast? = some c →
        isPySpace c = false := by
      intro c hc
      rw [hJlast] at hc
      exact strip_self_last hlaststrip hc
    have hJhead_ws : ∀ c, (paramsJoinChars (x :: xs)).head? = some c →
        isPySpace c = false := by
      intro c hc
      unfold paramsJoinChars at hc
      simp only [List.map_cons] at hc
      cases hx : x.data with
      | nil =>
        cases xs with
        | nil =>
          have : lastT = x := by simp [hlastTdef]
          rw [this] at hlastne
          exact absurd hx hlastne
        | cons q qs =>
          rw [hx] at hc
          simp only [joinWith, List.map_cons, List.nil_append, List.cons_append,
            List.head?_cons, Option.some.injEq] at hc
          subst hc
          decide
      | cons c0 cr =>
        have hxwf := hwf x (by simp)
        have hxstrip : pyStripList x.data = x.data := by
          simp only [wfParamTextB, Bool.and_eq_true, beq_iff_eq] at hxwf
          exact hxwf.2
        have hc0 : isPySpace c0 = false := strip_self_head hxstrip hx
        cases xs with
        | nil =>
          simp only [joinWith, List.map_nil] at hc
          rw [hx] at hc
          simp only [List.head?_cons, Option.some.injEq] at hc
          subst hc
          exact hc0
        | cons q qs =>
          simp only [joinWith, List.map_cons] at hc
          rw [List.append_assoc, head?_append_left (by rw [hx]; simp), hx] at hc
          simp only [List.head?_cons, Option.some.injEq] at hc
          subst hc
          exact hc0
    have hJstrip : pyStripList (paramsJoinChars (x :: xs)) = paramsJoinChars (x :: xs) :=
      pyStrip_eq_self hJhead_ws hJlast_ws
    have hJne : paramsJoinChars (x :: xs) ≠ [] := by
      intro h0
      rw [h0] at hJlast
      have : lastT.data.getLast? = some (lastT.data.getLast hlastne) :=
        List.getLast?_eq_getLast _ hlastne
      rw [this] at hJlast
      simp at hJlast
    unfold processParams
    rw [hJstrip]
    rw [if_neg (by simp [isEmpty_iff_nil, hJne])]
    have hnc : ∀ p ∈ x.data :: xs.map String.data, ∀ c ∈ p, c ≠ ',' := by
      intro p hp c hc
      have : ∃ t ∈ x :: xs, t.data = p := by
        rcases List.mem_cons.mp hp with rfl | hp2
        · exact ⟨x, by simp⟩
        · obtain ⟨t, ht, rfl⟩ := List.mem_map.mp hp2
          exact ⟨t, by simp [ht]⟩
      obtain ⟨t, ht, rfl⟩ := this
      have := hwf t ht
      simp only [wfParamTextB, Bool.and_eq_true] at this
      have := List.all_eq_true.mp this.1 c hc
      simp only [Bool.and_eq_true, bne_iff_ne, ne_eq] at this
      exact this.1
    have hsplit : splitOnChar ',' (paramsJoinChars (x :: xs))
        = x.data :: (xs.map String.data).map (fun p => ' ' :: p) := by
      unfold paramsJoinChars
      simp only [List.map_cons]
      exact split_joinWith_comma x.data (xs.map String.data) hnc
    rw [hsplit]
    rw [filterMap_specParam, List.map_cons]
    simp only [List.filterMap_cons]
    rw [filterMap_cons_space_map]

theorem docRender_eq_join (l0 : String) (ds : List String) :
    docRenderChars (l0 :: ds)
      = joinWith ['\n'] ((l0 :: ds).map (fun l => '/' :: '/' :: '/' :: l.data)) ++ ['\n'] := by
  induction ds generalizing l0 with
  | nil => simp [docRenderChars, joinWith]
  | cons l1 ds ih =>
    have hih := ih l1
    simp only [docRenderChars, List.map_cons, List.flatten_cons] at hih ⊢
    rw [hih]
    simp [joinWith, List.append_assoc]

theorem wfDocLineB_facts {l : String} (h : wfDocLineB l = true) :
    (∀ c ∈ l.data, c ≠ '\n') ∧ pyStripList l.data = l.data ∧ l.data.head? ≠ some '/' := by
  simp only [wfDocLineB, Bool.and_eq_true, beq_iff_eq, bne_iff_ne, ne_eq] at h
  refine ⟨?_, h.1.2, h.2⟩
  intro c hc
  have := List.all_eq_true.mp h.1.1 c hc
  simpa using this

theorem docLineChars_strip {l : String} (h : wfDocLineB l = true) :
    pyStripList ('/' :: '/' :: '/' :: l.data) = '/' :: '/' :: '/' :: l.data := by
  obtain ⟨-, hstrip, -⟩ := wfDocLineB_facts h
  apply pyStrip_eq_self
  · intro c hc
    simp only [List.head?_cons, Option.some.injEq] at hc
    subst hc
    decide
  · intro c hc
    cases hld : l.data with
    | nil => rw [hld] at hc; simp at hc; subst hc; decide
    | cons a as =>
      rw [show ('/' :: '/' :: '/' :: l.data) = ['/', '/', '/'] ++ l.data from rfl,
        List.getLast?_append_of_ne_nil _ (by rw [hld]; simp)] at hc
      exact strip_self_last hstrip hc

theorem docLineChars_last_not_space {l : String} (h : wfDocLineB l = true) :
    ∀ c, ('/' :: '/' :: '/' :: l.data).getLast? = some c → isPySpace c = false := by
  intro c hc
  obtain ⟨-, hstrip, -⟩ := wfDocLineB_facts h
  cases hld : l.data with
  | nil => rw [hld] at hc; simp at hc; subst hc; decide
  | cons a as =>
    rw [show ('/' :: '/' :: '/' :: l.data) = ['/', '/', '/'] ++ l.data from rfl,
      List.getLast?_append_of_ne_nil _ (by rw [hld]; simp)] at hc
    exact strip_self_last hstrip hc

theorem split_joinWith_nl (x : List Char) (xs : List (List Char))
    (h : ∀ p ∈ x :: xs, ∀ c ∈ p, c ≠ '\n') :
    splitOnChar '\n' (joinWith ['\n'] (x :: xs)) = x :: xs := by
  induction xs generalizing x with
  | nil =>
    simp only [joinWith]
    exact split_nosep (h x (by simp))
  | cons y ys ih =>
    have hj : joinWith ['\n'] (x :: y :: ys)
        = x ++ ('\n' :: joinWith ['\n'] (y :: ys)) := by
      simp [joinWith]
    rw [hj]
    have hy := ih y (fun p hp c hc => h p (by simp at hp ⊢; tauto) c hc)
    have hcm : splitOnChar '\n' ('\n' :: joinWith ['\n'] (y :: ys))
        = [] :: y :: ys := by
      rw [splitOnChar_cons_sep, hy]
    rw [split_append_nosep hcm (h x (by simp))]
    simp

theorem processDoc_render {ds : List String} (hwf : ∀ l ∈ ds, wfDocLineB l = true) :
    processDoc (docRenderChars ds) = ⟨joinWith ['\n'] (ds.map String.data)⟩ := by
  cases ds with
  | nil => rfl
  | cons l0 ds =>
    unfold processDoc
    have hstrip : pyStripList (docRenderChars (l0 :: ds))
        = joinWith ['\n'] ((l0 :: ds).map (fun l => '/' :: '/' :: '/' :: l.data)) := by
      rw [docRender_eq_join, pyStrip_append_space (by decide)]
      apply pyStrip_eq_self
      · intro c hc
        cases ds with
        | nil =>
          simp only [List.map_cons, List.map_nil, joinWith, List.head?_cons,
            Option.some.injEq] at hc
          subst hc
          decide
        | cons l1 ds' =>
          simp only [List.map_cons, joinWith] at hc
          rw [List.append_assoc, head?_append_left (by simp)] at hc
          simp only [List.head?_cons, Option.some.injEq] at hc
          subst hc
          decide
      · intro c hc
        have hlastT : (l0 :: ds).getLast? = some ((l0 :: ds).getLast (by simp)) :=
          List.getLast?_eq_getLast _ (by simp)
        have hmaplast : ((l0 :: ds).map (fun l => '/' :: '/' :: '/' :: l.data)).getLast?
            = some ('/' :: '/' :: '/' :: ((l0 :: ds).getLast (by simp)).data) := by
          rw [List.getLast?_map, hlastT]
          rfl
        rw [joinWith_getLast? (by simp) _ _ hmaplast (by simp)] at hc
        exact docLineChars_last_not_space
          (hwf ((l0 :: ds).getLast (by simp)) (List.getLast_mem _)) c hc
    rw [hstrip]
    have hne : joinWith ['\n'] ((l0 :: ds).map (fun l => '/' :: '/' :: '/' :: l.data))
        ≠ [] := by
      cases ds with
      | nil => simp [joinWith]
      | cons l1 ds' =>
        simp only [List.map_cons]
        exact joinWith_two_ne_nil (by simp) _ _ _
    rw [if_neg (by rw [isEmpty_iff_nil]; simpa using hne)]
    have hsplit : splitOnChar '\n'
        (joinWith ['\n'] ((l0 :: ds).map (fun l => '/' :: '/' :: '/' :: l.data)))
        = (l0 :: ds).map (fun l => '/' :: '/' :: '/' :: l.data) := by
      have := split_joinWith_nl ('/' :: '/' :: '/' :: l0.data)
        (ds.map (fun l => '/' :: '/' :: '/' :: l.data)) ?_
      · simpa using this
      · intro p hp c hc
        have : ∃ t ∈ l0 :: ds, ('/' :: '/' :: '/' :: t.data) = p := by
          rcases List.mem_cons.mp hp with rfl | hp2
          · exact ⟨l0, by simp⟩
          · obtain ⟨t, ht, rfl⟩ := List.mem_map.mp hp2
            exact ⟨t, by simp [ht]⟩
        obtain ⟨t, ht, rfl⟩ := this
        rcases List.mem_cons.mp hc with rfl | hc2
        · decide
        · rcases List.mem_cons.mp hc2 with rfl | hc3
          · decide
          · rcases List.mem_cons.mp hc3 with rfl | hc4
            · decide
            · exact (wfDocLineB_facts (hwf t ht)).1 c hc4
    rw [hsplit]
    have hfilter : ((l0 :: ds).map (fun l => '/' :: '/' :: '/' :: l.data)).filter
        (fun l => ['/', '/', '/'].isPrefixOf (pyStripList l))
        = (l0 :: ds).map (fun l => '/' :: '/' :: '/' :: l.data) := by
      apply List.filter_eq_self.mpr
      intro a ha
      obtain ⟨t, ht, rfl⟩ := List.mem_map.mp ha
      rw [docLineChars_strip (hwf t ht)]
      simp [List.isPrefixOf]
    rw [hfilter]
    have hmap : ((l0 :: ds).map (fun l => '/' :: '/' :: '/' :: l.data)).map
        (fun l => pyStripList (l.dropWhile (fun c => c == '/')))
        = (l0 :: ds).map String.data := by
      rw [List.map_map]
      apply List.map_congr_left
      intro t ht
      obtain ⟨-, hstript, hhead⟩ := wfDocLineB_facts (hwf t ht)
      simp only [Function.comp]
      rw [List.dropWhile_cons_of_pos (by decide), List.dropWhile_cons_of_pos (by decide),
        List.dropWhile_cons_of_pos (by decide)]
      rw [dropWhile_eq_self_of_head (by
        intro c hc
        have : c ≠ '/' := by
          intro hcc
          subst hcc
          exact hhead hc
        simp [this])]
      exact hstript
    rw [hmap]

theorem wfDecl_post_facts {d : ZigDecl} (h : wfDecl d = true) :
    (∀ t ∈ d.paramTexts, wfParamTextB t = true)
      ∧ (d.paramTexts = [] ∨ d.paramTexts.getLast? ≠ some "")
      ∧ pyStripList d.ret.data = d.ret.data
      ∧ (∀ l ∈ d.docLines, wfDocLineB l = true) := by
  simp only [wfDecl, Bool.and_eq_true] at h
  obtain ⟨⟨⟨⟨-, hpt⟩, hlast⟩, -, hrs⟩, hdl⟩ := h
  refine ⟨List.all_eq_true.mp hpt, ?_, by simpa using hrs, List.all_eq_true.mp hdl⟩
  simp only [Bool.or_eq_true] at hlast
  rcases hlast with he | hne
  · left; exact (isEmpty_iff_nil _).mp he
  · right; simpa using hne

theorem toZig_render {d : ZigDecl} (h : wfDecl d = true) :
    toZigFunction (rawMatchOf d) = expectedRecord d := by
  obtain ⟨hpt, hlast, hrs, hdl⟩ := wfDecl_post_facts h
  unfold toZigFunction rawMatchOf expectedRecord
  simp only [ZigFunction.mk.injEq, stringMk_data, and_true, true_and]
  refine ⟨?_, processParams_render hpt hlast, processDoc_render hdl⟩
  rw [pyStrip_cons_space (by decide), pyStrip_append_space (by decide), hrs]

theorem lookupCtypes_mem_descriptors {z c : String}
    (h : lookupCtypes z = some c) : c ∈ ctypesDescriptors := by
  unfold lookupCtypes at h
  obtain ⟨p, hp, rfl⟩ := Option.map_eq_some'.mp h
  have hmem : p ∈ ZIG_TO_CTYPES := List.mem_of_find?_eq_some hp
  have : ∀ q ∈ ZIG_TO_CTYPES, q.2 ∈ ctypesDescriptors := by decide
  exact this p hmem

/-- Claim C2: the type mapper is total and deterministic — for every input
string (and any equal pair of inputs) it returns one of the fixed
marshaling descriptor strings, and equal inputs give equal outputs. -/
theorem claim_C2 (s t : String) (h : s = t) :
    parse_zig_type s ∈ ctypesDescriptors ∧ parse_zig_type s = parse_zig_type t := by
  subst h
  refine ⟨?_, rfl⟩
  unfold parse_zig_type
  cases hl : lookupCtypes (pyStripStr s) with
  | some c => simp only [hl]; exact lookupCtypes_mem_descriptors hl
  | none => simp only [hl, ite_self]; decide

/-- Witness for claim C2 at a concrete input pair. -/
theorem claim_C2_witness :
    parse_zig_type "i32" ∈ ctypesDescriptors ∧ parse_zig_type "i32" = parse_zig_type "i32" :=
  claim_C2 "i32" "i32" rfl

/-- Claim C3, counterexample: the optional spelling `?i32` is not mapped to
the descriptor of its inner spelling `i32`; the code returns the opaque
pointer descriptor instead. -/
theorem claim_C3_cex :
    parse_zig_type "?i32" = "ctypes.c_void_p" ∧
    parse_zig_type "i32" = "ctypes.c_int32" ∧
    "ctypes.c_void_p" ≠ "ctypes.c_int32" := by
  refine ⟨by decide, by decide, by decide⟩

/-- Claim C3, amended: every optional/nullable-qualified spelling `?T` that
does not exact-match the fixed table maps to the opaque-pointer descriptor,
regardless of the inner spelling (in particular also when the inner spelling
is pointer-shaped). -/
theorem claim_C3 (s : String)
    (h1 : lookupCtypes (pyStripStr s) = none)
    (_h2 : isPreB "?" (pyStripStr s) = true) :
    parse_zig_type s = "ctypes.c_void_p" := by
  simp only [parse_zig_type, h1, ite_self]

/-- Witness for the amended claim C3 at the concrete input `?i32`. -/
theorem claim_C3_witness :
    (lookupCtypes (pyStripStr "?i32") = none ∧ isPreB "?" (pyStripStr "?i32") = true) ∧
    parse_zig_type "?i32" = "ctypes.c_void_p" :=
  ⟨⟨by decide, by decide⟩, claim_C3 "?i32" (by decide) (by decide)⟩

/-- Claim C1: for a source tree whose only export declaration is
`export fn add(a: i32, b: i32) i32 { ... }` with no doc comment, the
scanner produces exactly one record named `add` with parameters
`(a, b)` in order; the generated `__all__` block contains exactly
`"add"`; the generated wrapper's parameter list is `(a, b)`; both
argument descriptors and the return descriptor are the 32-bit signed
integer descriptor `ctypes.c_int32`. -/
theorem claim_C1 :
    parse_zig_exports exampleSourceA
      = [{ name := "add", return_type := "i32",
           params := [("a", "i32"), ("b", "i32")], doc := "", release_gil := true }]
    ∧ ["__all__ = [", "    \"add\",", "]"] <:+: exampleLinesA
    ∧ "def add(a, b):" ∈ exampleLinesA
    ∧ "    func.argtypes = [ctypes.c_int32, ctypes.c_int32]" ∈ exampleLinesA
    ∧ "    func.restype = ctypes.c_int32" ∈ exampleLinesA
    ∧ parse_zig_type "i32" = "ctypes.c_int32" := by
  refine ⟨by decide, by decide, by decide, by decide, by decide, by decide⟩

/-- Claim C4: for any source text consisting of well-formed export
declarations interleaved with non-matching filler text, the scanner
returns exactly one record per declaration, in source order, with the
correct name, doc text and parameter list; empty, variadic and
compile-time-qualified parameter texts are excluded from `params` without
preventing detection of the declaration, and each remaining parameter is
split on its first colon into a whitespace-trimmed (name, type) pair. -/
theorem claim_C4 (first : String) (groups : List (ZigDecl × String))
    (hf : inertStr first = true)
    (hg : ∀ g ∈ groups, wfDecl g.1 = true ∧ inertStr g.2 = true) :
    parse_zig_exports ⟨sourceChars first groups⟩
      = groups.map (fun g => expectedRecord g.1) := by
  unfold parse_zig_exports
  rw [show (String.mk (sourceChars first groups)).data = sourceChars first groups from rfl]
  rw [findAll_sourceChars first groups hf hg]
  rw [List.map_map]
  apply List.map_congr_left
  intro g hgm
  exact toZig_render (hg g hgm).1

/-- Witness for claim C4 at a concrete two-declaration source. -/
theorem claim_C4_witness :
    (inertStr "x=1;" = true
      ∧ (∀ g ∈ exampleGroups, wfDecl g.1 = true ∧ inertStr g.2 = true))
    ∧ parse_zig_exports ⟨sourceChars "x=1;" exampleGroups⟩
        = exampleGroups.map (fun g => expectedRecord g.1) :=
  ⟨⟨by decide, by decide⟩, claim_C4 "x=1;" exampleGroups (by decide) (by decide)⟩

/-- Claim C10: a matched declaration whose parameter texts are non-empty,
not the variadic marker, not compile-time-qualified, and contain no colon
is still recorded, but all such parameters are silently omitted, so the
record carries an empty parameter list. -/
theorem claim_C10 (d : ZigDecl) (first trail : String)
    (hf : inertStr first = true) (ht : inertStr trail = true)
    (hd : wfDecl d = true)
    (hp : ∀ t ∈ d.paramTexts,
        t ≠ "" ∧ t ≠ "..." ∧ isPreB "comptime" t = false ∧ ∀ c ∈ t.data, c ≠ ':') :
    parse_zig_exports ⟨sourceChars first [(d, trail)]⟩
      = [{ name := d.name, return_type := d.ret, params := [],
           doc := ⟨joinWith ['\n'] (d.docLines.map String.data)⟩,
           release_gil := true }] := by
  unfold parse_zig_exports
  rw [show (String.mk (sourceChars first [(d, trail)])).data
      = sourceChars first [(d, trail)] from rfl]
  rw [findAll_sourceChars first [(d, trail)] hf (by
    intro g hg
    simp only [List.mem_singleton] at hg
    subst hg
    exact ⟨hd, ht⟩)]
  simp only [List.map_cons, List.map_nil]
  rw [toZig_render hd]
  have hnil : d.paramTexts.filterMap specParam = [] := by
    rw [List.filterMap_eq_nil_iff]
    intro t htm
    obtain ⟨hne, hnd, hnc, hncol⟩ := hp t htm
    have hw := (wfDecl_post_facts hd).1 t htm
    have hts : pyStripStr t = t := by
      simp only [wfParamTextB, Bool.and_eq_true, beq_iff_eq] at hw
      unfold pyStripStr
      rw [hw.2]
    unfold specParam
    simp only [hts]
    rw [if_neg hne, if_neg hnd, if_neg (by simp [hnc])]
    rw [splitFirst_eq_none (fun c hc => hncol c hc)]
  unfold expectedRecord
  rw [hnil]

/-- Witness for claim C10 at a concrete declaration whose two parameters
lack colons. -/
theorem claim_C10_witness :
    (inertStr "x;" = true ∧ inertStr "\x7d" = true ∧ wfDecl exampleDeclNoColon = true
      ∧ (∀ t ∈ exampleDeclNoColon.paramTexts,
          t ≠ "" ∧ t ≠ "..." ∧ isPreB "comptime" t = false ∧ ∀ c ∈ t.data, c ≠ ':'))
    ∧ parse_zig_exports ⟨sourceChars "x;" [(exampleDeclNoColon, "\x7d")]⟩
        = [{ name := exampleDeclNoColon.name, return_type := exampleDeclNoColon.ret,
             params := [],
             doc := ⟨joinWith ['\n'] (exampleDeclNoColon.docLines.map String.data)⟩,
             release_gil := true }] :=
  ⟨⟨by decide, by decide, by decide, by decide⟩,
    claim_C10 exampleDeclNoColon "x;" "\x7d" (by decide) (by decide) (by decide) (by decide)⟩

theorem scan_foldl (files : List (String × Option String)) :
    ∀ acc : List ZigFunction,
      files.foldl
        (fun all_functions f =>
          match f.2 with
          | some source => all_functions ++ parse_zig_exports source
          | none => all_functions) acc
      = acc ++ (files.filterMap Prod.snd).flatMap (fun s => parse_zig_exports s) := by
  induction files with
  | nil => intro acc; simp
  | cons f fs ih =>
    intro acc
    simp only [List.foldl_cons, List.filterMap_cons]
    cases hf : f.2 with
    | some s =>
      simp only []
      rw [ih]
      simp [List.append_assoc]
    | none =>
      simp only []
      rw [ih]

/-- Claim C5: the directory scan never aborts — a file whose read fails is
skipped and contributes no records, and the resulting function list is
exactly the concatenation, in order, of the scan results of the readable
files. -/
theorem claim_C5 (files : List (String × Option String)) :
    scan_zig_sources files
      = (files.filterMap Prod.snd).flatMap (fun s => parse_zig_exports s) := by
  unfold scan_zig_sources
  simpa using scan_foldl files []

/-- Claim C6: after the compiler subprocess runs, `compile_zig` fails with
an error embedding the captured standard error (or standard output when
standard error is empty) exactly when the exit code is non-zero; on a zero
exit with a missing output file it fails with the integrity error; and on
a zero exit with the output present it returns the output path. -/
theorem claim_C6 (result : SubprocessResult) (outputFile : String) (outputExists : Bool) :
    (result.returncode ≠ 0 →
      compile_zig_outcome result outputFile outputExists
        = .calledProcessError result.returncode result.stdout
            ("Zig compilation failed:\n"
              ++ (if result.stderr = "" then result.stdout else result.stderr)))
    ∧ ((compile_zig_outcome result outputFile outputExists).isCalledProcessError = true
        ↔ result.returncode ≠ 0)
    ∧ (result.returncode = 0 → outputExists = false →
      compile_zig_outcome result outputFile outputExists
        = .outputMissing ("Compilation completed but output file not found: " ++ outputFile))
    ∧ (result.returncode = 0 → outputExists = true →
      compile_zig_outcome result outputFile outputExists = .success outputFile) := by
  unfold compile_zig_outcome
  by_cases h : result.returncode = 0
  · rw [if_neg (by simp [h])]
    refine ⟨fun hc => absurd h hc, ?_, ?_, ?_⟩
    · cases outputExists <;> simp [CompileOutcome.isCalledProcessError, h]
    · intro _ he; rw [he]; rfl
    · intro _ he; rw [he]; rfl
  · rw [if_pos h]
    refine ⟨fun _ => rfl, ?_, fun h0 => absurd h0 h, fun h0 => absurd h0 h⟩
    simp [CompileOutcome.isCalledProcessError, h]

/-- Witness for claim C6 at concrete subprocess results. -/
theorem claim_C6_witness :
    ((1 : Int) ≠ 0
      ∧ compile_zig_outcome ⟨1, "out", ""⟩ "libm.so" true
          = .calledProcessError 1 "out" ("Zig compilation failed:\n" ++ "out"))
    ∧ ((0 : Int) = 0
      ∧ compile_zig_outcome ⟨0, "", ""⟩ "libm.so" false
          = .outputMissing ("Compilation completed but output file not found: " ++ "libm.so")
      ∧ compile_zig_outcome ⟨0, "", ""⟩ "libm.so" true = .success "libm.so") := by
  refine ⟨⟨by decide, ?_⟩, rfl, ?_, ?_⟩
  · have h := (claim_C6 ⟨1, "out", ""⟩ "libm.so" true).1 (by decide)
    simpa using h
  · exact (claim_C6 ⟨0, "", ""⟩ "libm.so" false).2.2.1 rfl rfl
  · exact (claim_C6 ⟨0, "", ""⟩ "libm.so" true).2.2.2 rfl rfl

theorem records_foldl (sha256 : String → List Nat) (files : List (String × String)) :
    ∀ acc : List String,
      files.foldl
        (fun records f =>
          if pyFileName f.1 != "RECORD" then records ++ [recordLine sha256 f]
          else records) acc
      = acc ++ (files.filter (fun f => pyFileName f.1 != "RECORD")).map (recordLine sha256) := by
  induction files with
  | nil => intro acc; simp
  | cons f fs ih =>
    intro acc
    simp only [List.foldl_cons, List.filter_cons]
    by_cases hf : pyFileName f.1 != "RECORD"
    · rw [if_pos hf, if_pos hf, ih]
      simp [List.append_assoc]
    · rw [if_neg hf, if_neg hf, ih]

/-- Claim C7: the RECORD entries are exactly one line per staged file (in
order, skipping only files named `RECORD`), each line recomputable from
the file's bytes — forward-slashed path, base64url-encoded SHA-256 digest
without padding, and byte length — followed by the terminal self-entry
`RECORD,,` with empty digest and length fields; when no staged file is
named `RECORD` (the case in every build, since RECORD is written after),
there is exactly one entry per staged file with no omissions or extras. -/
theorem claim_C7 (sha256 : String → List Nat) (files : List (String × String)) :
    create_wheel_records sha256 files
      = (files.filter (fun f => pyFileName f.1 != "RECORD")).map (recordLine sha256)
        ++ ["RECORD,,"]
    ∧ ((∀ f ∈ files, pyFileName f.1 ≠ "RECORD") →
      create_wheel_records sha256 files
        = files.map (recordLine sha256) ++ ["RECORD,,"]) := by
  have h1 : create_wheel_records sha256 files
      = (files.filter (fun f => pyFileName f.1 != "RECORD")).map (recordLine sha256)
        ++ ["RECORD,,"] := by
    unfold create_wheel_records
    rw [records_foldl]
    simp
  refine ⟨h1, fun hall => ?_⟩
  rw [h1, List.filter_eq_self.mpr]
  intro f hf
  simpa using hall f hf

/-- Witness for claim C7 at a concrete staged file list. -/
theorem claim_C7_witness :
    (∀ f ∈ ([("pkg/__init__.py", "x = 1"), ("pkg/libm.so", "bytes")] :
        List (String × String)), pyFileName f.1 ≠ "RECORD")
    ∧ create_wheel_records (fun _ => List.replicate 32 0)
        [("pkg/__init__.py", "x = 1"), ("pkg/libm.so", "bytes")]
      = [("pkg/__init__.py", "x = 1"), ("pkg/libm.so", "bytes")].map
          (recordLine (fun _ => List.replicate 32 0))
        ++ ["RECORD,,"] :=
  ⟨by decide,
    (claim_C7 (fun _ => List.replicate 32 0)
      [("pkg/__init__.py", "x = 1"), ("pkg/libm.so", "bytes")]).2 (by decide)⟩

/-! ### String-prefix reasoning for the METADATA line groups -/

theorem string_data_append (a b : String) : (a ++ b).data = a.data ++ b.data := by
  cases a; cases b; rfl

theorem string_eq_iff_data {a b : String} : a = b ↔ a.data = b.data := by
  constructor
  · exact congrArg String.data
  · intro h; cases a; cases b; exact congrArg String.mk (by simpa using h)

theorem isPrefixOf_append_self (p r : List Char) : p.isPrefixOf (p ++ r) = true := by
  induction p with
  | nil => simp [List.isPrefixOf]
  | cons a l ih => simp [List.isPrefixOf, ih]

theorem isPreB_append_self (p s : String) : isPreB p (p ++ s) = true := by
  unfold isPreB
  rw [string_data_append]
  exact isPrefixOf_append_self p.data s.data

theorem isPreB_head_ne {p q : String} {a b : Char} {la lb : List Char}
    (hp : p.data = a :: la) (hq : q.data = b :: lb) (hab : a ≠ b) (s : String) :
    isPreB p (q ++ s) = false := by
  unfold isPreB
  rw [string_data_append, hq, hp]
  simp [List.isPrefixOf, hab]

theorem isPrefixOf_iff_take (l : List Char) : ∀ m : List Char,
    (l.isPrefixOf m = true ↔ m.take l.length = l) := by
  induction l with
  | nil => intro m; simp [List.isPrefixOf]
  | cons a l ih =>
    intro m
    cases m with
    | nil => simp [List.isPrefixOf]
    | cons b m =>
      simp only [List.isPrefixOf, Bool.and_eq_true, beq_iff_eq, List.length_cons,
        List.take_succ_cons, List.cons.injEq, ih m]
      tauto

theorem isPreB_of_le_false {p q : String} (hle : p.data.length ≤ q.data.length)
    (hnp : p.data.isPrefixOf q.data = false) (s : String) : isPreB p (q ++ s) = false := by
  unfold isPreB
  rw [string_data_append]
  cases hx : p.data.isPrefixOf (q.data ++ s.data) with
  | false => rfl
  | true =>
    exfalso
    have h1 := (isPrefixOf_iff_take p.data (q.data ++ s.data)).mp hx
    rw [List.take_append_of_le_length hle] at h1
    have h2 := (isPrefixOf_iff_take p.data q.data).mpr h1
    rw [hnp] at h2
    exact Bool.false_ne_true h2

theorem filter_ite_singleton {p : String → Bool} {c : Prop} [Decidable c] {x : String}
    (h : p x = false) : List.filter p (if c then [x] else []) = [] := by
  split <;> simp [List.filter_cons, h]

theorem filter_ite_singleton_pos {p : String → Bool} {c : Prop} [Decidable c] {x : String}
    (h : p x = true) :
    List.filter p (if c then [x] else []) = (if c then [x] else []) := by
  split <;> simp [List.filter_cons, h]

theorem isPreB_take_ne {p q : String} {n : Nat} (hn : n ≤ p.data.length)
    (hnq : n ≤ q.data.length) (hne : p.data.take n ≠ q.data.take n) (s : String) :
    isPreB p (q ++ s) = false := by
  unfold isPreB
  rw [string_data_append]
  cases hx : p.data.isPrefixOf (q.data ++ s.data) with
  | false => rfl
  | true =>
    exfalso
    have h1 := (isPrefixOf_iff_take p.data (q.data ++ s.data)).mp hx
    apply hne
    calc p.data.take n
        = ((q.data ++ s.data).take p.data.length).take n := by rw [h1]
      _ = (q.data ++ s.data).take n := by rw [List.take_take, Nat.min_eq_left hn]
      _ = q.data.take n := List.take_append_of_le_length hnq

theorem filter_map_of_false {α : Type} {p : String → Bool} {f : α → String} {l : List α}
    (h : ∀ a, p (f a) = false) : (l.map f).filter p = [] := by
  induction l with
  | nil => rfl
  | cons a as ih => simp [List.filter_cons, h a, ih]

theorem filter_map_of_true {α : Type} {p : String → Bool} {f : α → String} {l : List α}
    (h : ∀ a, p (f a) = true) : (l.map f).filter p = l.map f := by
  apply List.filter_eq_self.mpr
  intro a ha
  obtain ⟨b, -, rfl⟩ := List.mem_map.mp ha
  exact h b

theorem filter_authorLines_of_false {p : String → Bool}
    (authors : List PyAuthor) (h : ∀ a l, authorLine a = some l → p l = false) :
    (authors.filterMap authorLine).filter p = [] := by
  rw [List.filter_eq_nil_iff]
  intro l hl
  obtain ⟨a, -, ha⟩ := List.mem_filterMap.mp hl
  simp [h a l ha]

theorem filter_authorLines_of_true {p : String → Bool}
    (authors : List PyAuthor) (h : ∀ a l, authorLine a = some l → p l = true) :
    (authors.filterMap authorLine).filter p = authors.filterMap authorLine := by
  apply List.filter_eq_self.mpr
  intro l hl
  obtain ⟨a, -, ha⟩ := List.mem_filterMap.mp hl
  exact h a l ha

theorem licenseLine_shape (lic : PyLicense) : ∃ y : String, licenseLine lic = "License: " ++ y := by
  cases lic with
  | pdict es => exact ⟨_, rfl⟩
  | pstr s => exact ⟨_, rfl⟩

theorem authorLine_shape {a : PyAuthor} {l : String} (h : authorLine a = some l) :
    ∃ y : String, l = "Author" ++ y := by
  cases a with
  | nondict => simp [authorLine] at h
  | adict n e =>
    simp only [authorLine] at h
    split at h
    · simp only [Option.some.injEq] at h
      refine ⟨"-Email: " ++ n ++ " <" ++ e ++ ">", ?_⟩
      rw [← h]
      apply string_eq_iff_data.mpr
      simp only [string_data_append, List.append_assoc]
      rfl
    · split at h
      · simp only [Option.some.injEq] at h
        refine ⟨": " ++ n, ?_⟩
        rw [← h]
        apply string_eq_iff_data.mpr
        simp only [string_data_append, List.append_assoc]
        rfl
      · exact absurd h (by simp)

theorem string_append_assoc (a b c : String) : a ++ b ++ c = a ++ (b ++ c) := by
  apply string_eq_iff_data.mpr
  simp [string_data_append, List.append_assoc]

theorem urlLine_eq (u : String × String) :
    "Project-URL: " ++ u.1 ++ ", " ++ u.2 = "Project-URL: " ++ (u.1 ++ (", " ++ u.2)) := by
  simp only [string_append_assoc]

theorem filter_header3 {p : String → Bool} (m : ProjectMetadata)
    (h1 : p "Metadata-Version: 2.1" = false)
    (h2 : ∀ s, p ("Name: " ++ s) = false)
    (h3 : ∀ s, p ("Version: " ++ s) = false) :
    List.filter p ["Metadata-Version: 2.1", "Name: " ++ m.name, "Version: " ++ m.version]
      = [] := by
  simp [List.filter_cons, h1, h2 m.name, h3 m.version]

theorem filter_metadata_blocks {p : String → Bool} (m : ProjectMetadata)
    (h1 : p "Metadata-Version: 2.1" = false)
    (h2 : ∀ s, p ("Name: " ++ s) = false)
    (h3 : ∀ s, p ("Version: " ++ s) = false)
    (h4 : ∀ s, p ("Summary: " ++ s) = false)
    (h5 : ∀ s, p ("Requires-Python: " ++ s) = false)
    (h6 : ∀ s, p ("License: " ++ s) = false) :
    (create_wheel_metadata_lines m).filter p
      = (m.authors.filterMap authorLine).filter p
        ++ (m.classifiers.map (fun c => "Classifier: " ++ c)).filter p
        ++ (m.dependencies.map (fun d => "Requires-Dist: " ++ d)).filter p
        ++ (m.urls.map (fun u => "Project-URL: " ++ u.1 ++ ", " ++ u.2)).filter p := by
  simp only [create_wheel_metadata_lines, List.filter_append]
  rw [filter_header3 m h1 h2 h3,
    filter_ite_singleton (h4 m.description),
    filter_ite_singleton (h5 m.requires_python),
    filter_ite_singleton (by
      obtain ⟨y, hy⟩ := licenseLine_shape m.license
      rw [hy]; exact h6 y)]
  simp [List.append_assoc]

/-- C8 (counterexample): an author table with an email but no name is a
present author entry, yet `create_wheel_metadata` emits no author line at
all for it — so the METADATA text does not contain one line per author. -/
theorem claim_C8_cex :
    exampleMetadataNoName.authors.length = 1
    ∧ (create_wheel_metadata_lines exampleMetadataNoName).filter
        (fun l => isPreB "Author" l) = [] := by
  exact ⟨by decide, by decide⟩

/-- C8 (amended): for every input metadata mapping, the METADATA lines
beginning `Classifier: `, `Requires-Dist: ` and `Project-URL: ` are exactly
one line per classifier, dependency and project URL respectively, in input
order with no additions or drops; the lines beginning `Author` are exactly
the lines `authorLine` yields — `Author-Email: name <email>` when an author
dict has both name and email, `Author: name` when it has a name only, and
NO line when it has no name (even if it has an email) or is not a dict;
and the optional `Summary: `, `Requires-Python: ` and `License: ` lines
each appear exactly once with the field's content when the field is
present (truthy) and are omitted entirely when it is absent. -/
theorem claim_C8 (m : ProjectMetadata) :
    (create_wheel_metadata_lines m).filter (fun l => isPreB "Classifier: " l)
      = m.classifiers.map (fun c => "Classifier: " ++ c)
    ∧ (create_wheel_metadata_lines m).filter (fun l => isPreB "Requires-Dist: " l)
      = m.dependencies.map (fun d => "Requires-Dist: " ++ d)
    ∧ (create_wheel_metadata_lines m).filter (fun l => isPreB "Project-URL: " l)
      = m.urls.map (fun u => "Project-URL: " ++ u.1 ++ ", " ++ u.2)
    ∧ (create_wheel_metadata_lines m).filter (fun l => isPreB "Author" l)
      = m.authors.filterMap authorLine
    ∧ (create_wheel_metadata_lines m).filter (fun l => isPreB "Summary: " l)
      = (if m.description != "" then ["Summary: " ++ m.description] else [])
    ∧ (create_wheel_metadata_lines m).filter (fun l => isPreB "Requires-Python: " l)
      = (if m.requires_python != "" then ["Requires-Python: " ++ m.requires_python] else [])
    ∧ (create_wheel_metadata_lines m).filter (fun l => isPreB "License: " l)
      = (if licenseTruthy m.license then [licenseLine m.license] else []) := by
  refine ⟨?_, ?_, ?_, ?_, ?_, ?_, ?_⟩
  · have hau : (m.authors.filterMap authorLine).filter
        (fun l => isPreB "Classifier: " l) = [] :=
      filter_authorLines_of_false m.authors (fun a l hl => by
        obtain ⟨y, hy⟩ := authorLine_shape hl
        rw [hy]; exact isPreB_head_ne rfl rfl (by decide) y)
    have hcl : (m.classifiers.map (fun c => "Classifier: " ++ c)).filter
        (fun l => isPreB "Classifier: " l)
        = m.classifiers.map (fun c => "Classifier: " ++ c) :=
      filter_map_of_true (fun c => isPreB_append_self "Classifier: " c)
    have hde : (m.dependencies.map (fun d => "Requires-Dist: " ++ d)).filter
        (fun l => isPreB "Classifier: " l) = [] :=
      filter_map_of_false (fun d => isPreB_head_ne rfl rfl (by decide) d)
    have hur : (m.urls.map (fun u => "Project-URL: " ++ u.1 ++ ", " ++ u.2)).filter
        (fun l => isPreB "Classifier: " l) = [] :=
      filter_map_of_false (fun u => by
        rw [urlLine_eq u]; exact isPreB_head_ne rfl rfl (by decide) _)
    rw [filter_metadata_blocks m (by decide)
        (fun s => isPreB_head_ne rfl rfl (by decide) s)
        (fun s => isPreB_head_ne rfl rfl (by decide) s)
        (fun s => isPreB_head_ne rfl rfl (by decide) s)
        (fun s => isPreB_head_ne rfl rfl (by decide) s)
        (fun s => isPreB_head_ne rfl rfl (by decide) s),
      hau, hcl, hde, hur]
    simp
  · have hau : (m.authors.filterMap authorLine).filter
        (fun l => isPreB "Requires-Dist: " l) = [] :=
      filter_authorLines_of_false m.authors (fun a l hl => by
        obtain ⟨y, hy⟩ := authorLine_shape hl
        rw [hy]; exact isPreB_head_ne rfl rfl (by decide) y)
    have hcl : (m.classifiers.map (fun c => "Classifier: " ++ c)).filter
        (fun l => isPreB "Requires-Dist: " l) = [] :=
      filter_map_of_false (fun c => isPreB_head_ne rfl rfl (by decide) c)
    have hde : (m.dependencies.map (fun d => "Requires-Dist: " ++ d)).filter
        (fun l => isPreB "Requires-Dist: " l)
        = m.dependencies.map (fun d => "Requires-Dist: " ++ d) :=
      filter_map_of_true (fun d => isPreB_append_self "Requires-Dist: " d)
    have hur : (m.urls.map (fun u => "Project-URL: " ++ u.1 ++ ", " ++ u.2)).filter
        (fun l => isPreB "Requires-Dist: " l) = [] :=
      filter_map_of_false (fun u => by
        rw [urlLine_eq u]; exact isPreB_head_ne rfl rfl (by decide) _)
    rw [filter_metadata_blocks m (by decide)
        (fun s => isPreB_head_ne rfl rfl (by decide) s)
        (fun s => isPreB_head_ne rfl rfl (by decide) s)
        (fun s => isPreB_head_ne rfl rfl (by decide) s)
        (fun s => isPreB_of_le_false (by decide) (by decide) s)
        (fun s => isPreB_head_ne rfl rfl (by decide) s),
      hau, hcl, hde, hur]
    simp
  · have hau : (m.authors.filterMap authorLine).filter
        (fun l => isPreB "Project-URL: " l) = [] :=
      filter_authorLines_of_false m.authors (fun a l hl => by
        obtain ⟨y, hy⟩ := authorLine_shape hl
        rw [hy]; exact isPreB_head_ne rfl rfl (by decide) y)
    have hcl : (m.classifiers.map (fun c => "Classifier: " ++ c)).filter
        (fun l => isPreB "Project-URL: " l) = [] :=
      filter_map_of_false (fun c => isPreB_head_ne rfl rfl (by decide) c)
    have hde : (m.dependencies.map (fun d => "Requires-Dist: " ++ d)).filter
        (fun l => isPreB "Project-URL: " l) = [] :=
      filter_map_of_false (fun d => isPreB_head_ne rfl rfl (by decide) d)
    have hur : (m.urls.map (fun u => "Project-URL: " ++ u.1 ++ ", " ++ u.2)).filter
        (fun l => isPreB "Project-URL: " l)
        = m.urls.map (fun u => "Project-URL: " ++ u.1 ++ ", " ++ u.2) :=
      filter_map_of_true (fun u => by
        rw [urlLine_eq u]; exact isPreB_append_self "Project-URL: " _)
    rw [filter_metadata_blocks m (by decide)
        (fun s => isPreB_head_ne rfl rfl (by decide) s)
        (fun s => isPreB_head_ne rfl rfl (by decide) s)
        (fun s => isPreB_head_ne rfl rfl (by decide) s)
        (fun s => isPreB_head_ne rfl rfl (by decide) s)
        (fun s => isPreB_head_ne rfl rfl (by decide) s),
      hau, hcl, hde, hur]
    simp
  · have hau : (m.authors.filterMap authorLine).filter
        (fun l => isPreB "Author" l) = m.authors.filterMap authorLine :=
      filter_authorLines_of_true m.authors (fun a l hl => by
        obtain ⟨y, hy⟩ := authorLine_shape hl
        rw [hy]; exact isPreB_append_self "Author" y)
    have hcl : (m.classifiers.map (fun c => "Classifier: " ++ c)).filter
        (fun l => isPreB "Author" l) = [] :=
      filter_map_of_false (fun c => isPreB_head_ne rfl rfl (by decide) c)
    have hde : (m.dependencies.map (fun d => "Requires-Dist: " ++ d)).filter
        (fun l => isPreB "Author" l) = [] :=
      filter_map_of_false (fun d => isPreB_head_ne rfl rfl (by decide) d)
    have hur : (m.urls.map (fun u => "Project-URL: " ++ u.1 ++ ", " ++ u.2)).filter
        (fun l => isPreB "Author" l) = [] :=
      filter_map_of_false (fun u => by
        rw [urlLine_eq u]; exact isPreB_head_ne rfl rfl (by decide) _)
    rw [filter_metadata_blocks m (by decide)
        (fun s => isPreB_head_ne rfl rfl (by decide) s)
        (fun s => isPreB_head_ne rfl rfl (by decide) s)
        (fun s => isPreB_head_ne rfl rfl (by decide) s)
        (fun s => isPreB_head_ne rfl rfl (by decide) s)
        (fun s => isPreB_head_ne rfl rfl (by decide) s),
      hau, hcl, hde, hur]
    simp
  · have hh : List.filter (fun l => isPreB "Summary: " l)
        ["Metadata-Version: 2.1", "Name: " ++ m.name, "Version: " ++ m.version] = [] :=
      filter_header3 m (by decide)
        (fun s => isPreB_head_ne rfl rfl (by decide) s)
        (fun s => isPreB_head_ne rfl rfl (by decide) s)
    have hsum : List.filter (fun l => isPreB "Summary: " l)
        (if m.description != "" then ["Summary: " ++ m.description] else [])
        = (if m.description != "" then ["Summary: " ++ m.description] else []) :=
      filter_ite_singleton_pos (isPreB_append_self "Summary: " m.description)
    have hrp : List.filter (fun l => isPreB "Summary: " l)
        (if m.requires_python != "" then ["Requires-Python: " ++ m.requires_python] else [])
        = [] :=
      filter_ite_singleton (isPreB_head_ne rfl rfl (by decide) m.requires_python)
    have hlic : List.filter (fun l => isPreB "Summary: " l)
        (if licenseTruthy m.license then [licenseLine m.license] else []) = [] :=
      filter_ite_singleton (by
        obtain ⟨y, hy⟩ := licenseLine_shape m.license
        rw [hy]; exact isPreB_head_ne rfl rfl (by decide) y)
    have hau : (m.authors.filterMap authorLine).filter
        (fun l => isPreB "Summary: " l) = [] :=
      filter_authorLines_of_false m.authors (fun a l hl => by
        obtain ⟨y, hy⟩ := authorLine_shape hl
        rw [hy]; exact isPreB_head_ne rfl rfl (by decide) y)
    have hcl : (m.classifiers.map (fun c => "Classifier: " ++ c)).filter
        (fun l => isPreB "Summary: " l) = [] :=
      filter_map_of_false (fun c => isPreB_head_ne rfl rfl (by decide) c)
    have hde : (m.dependencies.map (fun d => "Requires-Dist: " ++ d)).filter
        (fun l => isPreB "Summary: " l) = [] :=
      filter_map_of_false (fun d => isPreB_head_ne rfl rfl (by decide) d)
    have hur : (m.urls.map (fun u => "Project-URL: " ++ u.1 ++ ", " ++ u.2)).filter
        (fun l => isPreB "Summary: " l) = [] :=
      filter_map_of_false (fun u => by
        rw [urlLine_eq u]; exact isPreB_head_ne rfl rfl (by decide) _)
    simp only [create_wheel_metadata_lines, List.filter_append]
    rw [hh, hsum, hrp, hlic, hau, hcl, hde, hur]
    simp
  · have hh : List.filter (fun l => isPreB "Requires-Python: " l)
        ["Metadata-Version: 2.1", "Name: " ++ m.name, "Version: " ++ m.version] = [] :=
      filter_header3 m (by decide)
        (fun s => isPreB_head_ne rfl rfl (by decide) s)
        (fun s => isPreB_head_ne rfl rfl (by decide) s)
    have hsum : List.filter (fun l => isPreB "Requires-Python: " l)
        (if m.description != "" then ["Summary: " ++ m.description] else []) = [] :=
      filter_ite_singleton (isPreB_head_ne rfl rfl (by decide) m.description)
    have hrp : List.filter (fun l => isPreB "Requires-Python: " l)
        (if m.requires_python != "" then ["Requires-Python: " ++ m.requires_python] else [])
        = (if m.requires_python != "" then ["Requires-Python: " ++ m.requires_python] else []) :=
      filter_ite_singleton_pos (isPreB_append_self "Requires-Python: " m.requires_python)
    have hlic : List.filter (fun l => isPreB "Requires-Python: " l)
        (if licenseTruthy m.license then [licenseLine m.license] else []) = [] :=
      filter_ite_singleton (by
        obtain ⟨y, hy⟩ := licenseLine_shape m.license
        rw [hy]; exact isPreB_head_ne rfl rfl (by decide) y)
    have hau : (m.authors.filterMap authorLine).filter
        (fun l => isPreB "Requires-Python: " l) = [] :=
      filter_authorLines_of_false m.authors (fun a l hl => by
        obtain ⟨y, hy⟩ := authorLine_shape hl
        rw [hy]; exact isPreB_head_ne rfl rfl (by decide) y)
    have hcl : (m.classifiers.map (fun c => "Classifier: " ++ c)).filter
        (fun l => isPreB "Requires-Python: " l) = [] :=
      filter_map_of_false (fun c => isPreB_head_ne rfl rfl (by decide) c)
    have hde : (m.dependencies.map (fun d => "Requires-Dist: " ++ d)).filter
        (fun l => isPreB "Requires-Python: " l) = [] :=
      filter_map_of_false (fun d => isPreB_take_ne (n := 10) (by decide) (by decide) (by decide) d)
    have hur : (m.urls.map (fun u => "Project-URL: " ++ u.1 ++ ", " ++ u.2)).filter
        (fun l => isPreB "Requires-Python: " l) = [] :=
      filter_map_of_false (fun u => by
        rw [urlLine_eq u]; exact isPreB_head_ne rfl rfl (by decide) _)
    simp only [create_wheel_metadata_lines, List.filter_append]
    rw [hh, hsum, hrp, hlic, hau, hcl, hde, hur]
    simp
  · have hh : List.filter (fun l => isPreB "License: " l)
        ["Metadata-Version: 2.1", "Name: " ++ m.name, "Version: " ++ m.version] = [] :=
      filter_header3 m (by decide)
        (fun s => isPreB_head_ne rfl rfl (by decide) s)
        (fun s => isPreB_head_ne rfl rfl (by decide) s)
    have hsum : List.filter (fun l => isPreB "License: " l)
        (if m.description != "" then ["Summary: " ++ m.description] else []) = [] :=
      filter_ite_singleton (isPreB_head_ne rfl rfl (by decide) m.description)
    have hrp : List.filter (fun l => isPreB "License: " l)
        (if m.requires_python != "" then ["Requires-Python: " ++ m.requires_python] else [])
        = [] :=
      filter_ite_singleton (isPreB_head_ne rfl rfl (by decide) m.requires_python)
    have hlic : List.filter (fun l => isPreB "License: " l)
        (if licenseTruthy m.license then [licenseLine m.license] else [])
        = (if licenseTruthy m.license then [licenseLine m.license] else []) :=
      filter_ite_singleton_pos (by
        obtain ⟨y, hy⟩ := licenseLine_shape m.license
        rw [hy]; exact isPreB_append_self "License: " y)
    have hau : (m.authors.filterMap authorLine).filter
        (fun l => isPreB "License: " l) = [] :=
      filter_authorLines_of_false m.authors (fun a l hl => by
        obtain ⟨y, hy⟩ := authorLine_shape hl
        rw [hy]; exact isPreB_head_ne rfl rfl (by decide) y)
    have hcl : (m.classifiers.map (fun c => "Classifier: " ++ c)).filter
        (fun l => isPreB "License: " l) = [] :=
      filter_map_of_false (fun c => isPreB_head_ne rfl rfl (by decide) c)
    have hde : (m.dependencies.map (fun d => "Requires-Dist: " ++ d)).filter
        (fun l => isPreB "License: " l) = [] :=
      filter_map_of_false (fun d => isPreB_head_ne rfl rfl (by decide) d)
    have hur : (m.urls.map (fun u => "Project-URL: " ++ u.1 ++ ", " ++ u.2)).filter
        (fun l => isPreB "License: " l) = [] :=
      filter_map_of_false (fun u => by
        rw [urlLine_eq u]; exact isPreB_head_ne rfl rfl (by decide) _)
    simp only [create_wheel_metadata_lines, List.filter_append]
    rw [hh, hsum, hrp, hlic, hau, hcl, hde, hur]
    simp

/-- C9: an editable-mode build stages exactly five files — the single
`.pth` path-redirect marker whose content is the project directory, the
three `.dist-info` metadata files, and `RECORD` over those four — with no
compiled library and no generated `__init__.py`; moreover the result does
not depend on the compiler's or the scanner's outputs at all. -/
theorem claim_C9 (sha256 : String → List Nat) (metadata : ProjectMetadata)
    (zigx_config : ZigxConfig) (project_dir : String)
    (python_tag abi_tag platform_tag : String)
    (lib_filename lib_content : String) (functions : List ZigFunction) :
    (build_wheel_impl_files sha256 metadata zigx_config project_dir
        python_tag abi_tag platform_tag true lib_filename lib_content functions =
      (let module_name := zigx_config.module_name.getD (pyReplaceChar '-' '_' metadata.name)
       let dist_info_name := metadata.name ++ "-" ++ metadata.version ++ ".dist-info"
       let mcw := create_wheel_metadata metadata python_tag abi_tag platform_tag
       let staged := [ (module_name ++ ".pth", project_dir),
            (dist_info_name ++ "/METADATA", mcw.1),
            (dist_info_name ++ "/WHEEL", mcw.2),
            (dist_info_name ++ "/top_level.txt", module_name) ]
       staged ++ [(dist_info_name ++ "/RECORD", create_wheel_record sha256 staged)]))
    ∧ ∀ lib_filename' lib_content' functions',
        build_wheel_impl_files sha256 metadata zigx_config project_dir
          python_tag abi_tag platform_tag true lib_filename lib_content functions =
        build_wheel_impl_files sha256 metadata zigx_config project_dir
          python_tag abi_tag platform_tag true lib_filename' lib_content' functions' := by
  exact ⟨rfl, fun _ _ _ => rfl⟩

end Zigx
